import Mathlib

/-!
Verification of the probe/response correlation and timing engine of the
midi_tester repository (src/message_types.py, src/timing_model.py,
src/fuzz_test.py, src/endurance_monitor.py), shallowly embedded in Lean.

Modelling conventions:
* Python floats (times, delays, latencies) are embedded as rationals `ℚ`;
  the claims under consideration do not depend on binary rounding.
* MIDI integer fields (channel, number, value) are embedded as `ℤ`.
* Python dicts keyed by message identity or label are embedded as
  association lists with in-place update (`aset`) / first-match removal
  (`aerase`), mirroring dict insertion-order semantics.
* The `heapq` deadline min-heap is embedded as a list kept sorted by
  deadline; `heappush` is sorted insertion, the `check_timeouts` while
  loop pops from the head.  The tie order among equal deadlines is
  heap-internal in the source; no theorem below depends on it.
* Pseudo-random draws (`random.random()`, `random.uniform`,
  `random.randint`, candidate-spec generation) and the transcendental
  `math.sin` value are supplied as explicit oracle parameters, so every
  theorem quantifies over all possible draws.
* Calls to the MIDI transport collaborator are made observable: each
  operation that may emit messages returns the list of `Send`s it makes.
-/

/-- Message type enumeration: the six `TYPE_*` string constants of
`src/message_types.py` (`note`, `cc`, `cc14`, `nrpn`, `pc`, `pb`). -/
inductive MType where
  | note
  | cc
  | cc14
  | nrpn
  | pc
  | pb
deriving DecidableEq, Repr

/-- `ALL_TYPES` from `src/message_types.py`. -/
def allTypes : List MType := [.note, .cc, .cc14, .nrpn, .pc, .pb]

/-- `TYPE_RANGES[t]["number"]` from `src/message_types.py`. -/
def numberRange : MType → ℤ × ℤ
  | .note => (0, 127)
  | .cc => (0, 127)
  | .cc14 => (0, 31)
  | .nrpn => (0, 16383)
  | .pc => (0, 127)
  | .pb => (0, 0)

/-- `TYPE_RANGES[t]["value"]` from `src/message_types.py`. -/
def valueRange : MType → ℤ × ℤ
  | .note => (1, 127)
  | .cc => (0, 127)
  | .cc14 => (0, 16383)
  | .nrpn => (0, 16383)
  | .pc => (0, 0)
  | .pb => (0, 16383)

/-- `PROBE_DEFAULTS[t]["number"]` from `src/message_types.py`. -/
def probeDefaultNumber : MType → ℤ
  | .note => 60
  | .cc => 74
  | .cc14 => 1
  | .nrpn => 1300
  | .pc => 10
  | .pb => 0

/-- `PROBE_DEFAULTS[t]["value"]` from `src/message_types.py`. -/
def probeDefaultValue : MType → ℤ
  | .note => 100
  | .cc => 64
  | .cc14 => 8192
  | .nrpn => 8192
  | .pc => 0
  | .pb => 8192

/-- `MessageSpec` dataclass of `src/message_types.py`. -/
structure MessageSpec where
  mtype : MType
  channel : ℤ
  number : ℤ
  value : ℤ
deriving DecidableEq, Repr

/-- The correlation key: `MessageSpec.identity()` returns the
`(mtype, channel, number, value)` tuple. -/
def Identity := MType × ℤ × ℤ × ℤ
deriving DecidableEq, Repr

/-- `MessageSpec.identity()` from `src/message_types.py`. -/
def MessageSpec.identity (s : MessageSpec) : Identity :=
  (s.mtype, s.channel, s.number, s.value)

/-- `clamp(val, lo, hi) = max(lo, min(hi, val))` from `src/message_types.py`. -/
def clampZ (val lo hi : ℤ) : ℤ := max lo (min hi val)

/-- `build_spec(mtype, channel, number, value)` from `src/message_types.py`:
number and value are clamped into the type's range, the channel is passed
through unchanged (only `int()`-converted in the source). -/
def buildSpec (mtype : MType) (channel number value : ℤ) : MessageSpec :=
  let nr := numberRange mtype
  let vr := valueRange mtype
  { mtype := mtype
    channel := channel
    number := clampZ number nr.1 nr.2
    value := clampZ value vr.1 vr.2 }

/-- The `vary_number=False, vary_value=False` path of `random_spec` from
`src/message_types.py`: a single-point range forces its point, otherwise
the supplied base is used; the result then passes through `build_spec`.
This is the only path the endurance prober and the single-mode fuzz
defaults exercise deterministically. -/
def randomSpecNoVary (mtype : MType) (channel baseNumber baseValue : ℤ) :
    MessageSpec :=
  let nr := numberRange mtype
  let vr := valueRange mtype
  let n := if nr.1 = nr.2 then nr.1 else baseNumber
  let v := if vr.1 = vr.2 then vr.1 else baseValue
  buildSpec mtype channel n v

/-- Inbound decoded event (§6 of the design): one structurally tagged
event per MIDI message; `other` stands for transport-only kinds with no
synthetic counterpart (aftertouch, sysex, ...). Timestamps are optional
seconds, matching `event.get('timestamp', now)` fallbacks. -/
inductive InEvent where
  | note (channel noteNum velocity : ℤ) (timestamp : Option ℚ)
  | cc (channel ccNum value : ℤ) (timestamp : Option ℚ)
  | cc14 (channel ccNum value : ℤ) (timestamp : Option ℚ)
  | nrpn (channel nrpnNum value : ℤ) (timestamp : Option ℚ)
  | pc (channel value : ℤ) (timestamp : Option ℚ)
  | pb (channel value : ℤ) (timestamp : Option ℚ)
  | other (timestamp : Option ℚ)
deriving DecidableEq, Repr

/-- The `timestamp` field of an event, for `e.get('timestamp', now)`. -/
def InEvent.timestamp : InEvent → Option ℚ
  | .note _ _ _ t => t
  | .cc _ _ _ t => t
  | .cc14 _ _ _ t => t
  | .nrpn _ _ _ t => t
  | .pc _ _ t => t
  | .pb _ _ t => t
  | .other t => t

/-- `event_to_spec(event)` from `src/message_types.py`: maps a decoded
inbound event to a `MessageSpec` (no clamping), or `none` when no
correlation is possible (unknown kind, or a note with velocity ≤ 0). -/
def eventToSpec : InEvent → Option MessageSpec
  | .note ch n vel _ =>
      if vel ≤ 0 then none
      else some { mtype := .note, channel := ch, number := n, value := vel }
  | .cc ch n v _ => some { mtype := .cc, channel := ch, number := n, value := v }
  | .cc14 ch n v _ => some { mtype := .cc14, channel := ch, number := n, value := v }
  | .nrpn ch n v _ => some { mtype := .nrpn, channel := ch, number := n, value := v }
  | .pc ch v _ => some { mtype := .pc, channel := ch, number := v, value := 0 }
  | .pb ch v _ => some { mtype := .pb, channel := ch, number := 0, value := v }
  | .other _ => none

/-- An outbound MIDI transport call (§6: `sendNote`, `sendCC`, ...). -/
inductive Send where
  | note (channel noteNum velocity : ℤ)
  | cc (channel ccNum value : ℤ)
  | cc14 (channel ccNum value : ℤ)
  | nrpn (channel param value : ℤ)
  | pc (channel program : ℤ)
  | pb (channel value : ℤ)
deriving DecidableEq, Repr

/-- Basic clamp facts on `ℤ`: the result lies in `[lo, hi]` when the
range is well formed, and in-range inputs are preserved. -/
theorem clampZ_mem (val lo hi : ℤ) (h : lo ≤ hi) :
    lo ≤ clampZ val lo hi ∧ clampZ val lo hi ≤ hi := by
  unfold clampZ; omega

theorem clampZ_id (val lo hi : ℤ) (h1 : lo ≤ val) (h2 : val ≤ hi) :
    clampZ val lo hi = val := by
  unfold clampZ; omega

/-- Every message type's ranges are well formed (`lo ≤ hi`). -/
theorem ranges_wf (t : MType) :
    (numberRange t).1 ≤ (numberRange t).2 ∧
    (valueRange t).1 ≤ (valueRange t).2 := by
  cases t <;> decide

/-- C7: For every message type, every channel, and all integer
number/value inputs, `build_spec` returns a `MessageSpec` whose number
and value lie inside that type's fixed valid range, with out-of-range
inputs clamped to the nearest bound and in-range inputs preserved;
`build_spec` is a total function (never fails). -/
theorem buildSpec_clamps (t : MType) (ch n v : ℤ) :
    ((numberRange t).1 ≤ (buildSpec t ch n v).number ∧
      (buildSpec t ch n v).number ≤ (numberRange t).2) ∧
    ((valueRange t).1 ≤ (buildSpec t ch n v).value ∧
      (buildSpec t ch n v).value ≤ (valueRange t).2) ∧
    (buildSpec t ch n v).number = clampZ n (numberRange t).1 (numberRange t).2 ∧
    (buildSpec t ch n v).value = clampZ v (valueRange t).1 (valueRange t).2 ∧
    ((numberRange t).1 ≤ n → n ≤ (numberRange t).2 →
      (buildSpec t ch n v).number = n) ∧
    ((valueRange t).1 ≤ v → v ≤ (valueRange t).2 →
      (buildSpec t ch n v).value = v) := by
  obtain ⟨hn, hv⟩ := ranges_wf t
  refine ⟨clampZ_mem n _ _ hn, clampZ_mem v _ _ hv, rfl, rfl, ?_, ?_⟩ <;>
    · intro h1 h2
      simp only [buildSpec]
      exact clampZ_id _ _ _ h1 h2

/-- Closed witness for `buildSpec_clamps` at a concrete input (CC type,
out-of-range number 300, in-range value 64). -/
theorem buildSpec_clamps_witness :
    (0 ≤ (buildSpec .cc 3 300 64).number ∧ (buildSpec .cc 3 300 64).number ≤ 127) ∧
    (buildSpec .cc 3 300 64).value = 64 := by
  refine ⟨((buildSpec_clamps .cc 3 300 64).1), ?_⟩
  exact (buildSpec_clamps .cc 3 300 64).2.2.2.2.2 (by decide) (by decide)

/-- C10: `build_spec` never clamps or rejects the channel argument: for
every integer channel input, including values outside `[0, 15]`, the
returned `MessageSpec` carries that channel unchanged. -/
theorem buildSpec_channel_passthrough (t : MType) (ch n v : ℤ) :
    (buildSpec t ch n v).channel = ch := rfl

/-! ## Association-list embedding of Python dicts -/

/-- Python dict assignment `d[k] = v`: replace the first binding of `k`
in place, else append at the end (insertion order preserved). -/
def aset {κ α : Type} [DecidableEq κ] (k : κ) (v : α) :
    List (κ × α) → List (κ × α)
  | [] => [(k, v)]
  | (k', v') :: rest =>
      if k' = k then (k, v) :: rest else (k', v') :: aset k v rest

/-- Python dict lookup `d.get(k)` / `k in d`. -/
def alookup {κ α : Type} [DecidableEq κ] (k : κ) :
    List (κ × α) → Option α
  | [] => none
  | (k', v') :: rest => if k' = k then some v' else alookup k rest

/-- Python dict removal `d.pop(k)` (the remaining dict): removes the
first binding of `k`. -/
def aerase {κ α : Type} [DecidableEq κ] (k : κ) :
    List (κ × α) → List (κ × α)
  | [] => []
  | (k', v') :: rest =>
      if k' = k then rest else (k', v') :: aerase k rest

/-- The key list of an association list. -/
def keysOf {κ α : Type} (l : List (κ × α)) : List κ := l.map Prod.fst

/-- `collections.deque(maxlen=cap)` append: push at the right, evict
from the left once the capacity is exceeded. -/
def appendBounded {α : Type} (cap : ℕ) (l : List α) (x : α) : List α :=
  let l' := l ++ [x]
  if cap < l'.length then l'.drop (l'.length - cap) else l'

/-! ## RunningStats (Welford) from src/fuzz_test.py -/

/-- `RunningStats` state of `src/fuzz_test.py`. -/
structure RunningStats where
  count : ℕ
  mean : ℚ
  m2 : ℚ
  min_val : Option ℚ
  max_val : Option ℚ
deriving DecidableEq, Repr

/-- `RunningStats.__init__` / `reset`. -/
def RunningStats.init : RunningStats :=
  { count := 0, mean := 0, m2 := 0, min_val := none, max_val := none }

/-- `RunningStats.update(value)`: one Welford step. -/
def RunningStats.update (st : RunningStats) (value : ℚ) : RunningStats :=
  let count := st.count + 1
  let delta := value - st.mean
  let mean := st.mean + delta / (count : ℚ)
  let delta2 := value - mean
  { count := count
    mean := mean
    m2 := st.m2 + delta * delta2
    min_val := match st.min_val with
      | none => some value
      | some m => if value < m then some value else some m
    max_val := match st.max_val with
      | none => some value
      | some m => if value > m then some value else some m }

/-- `RunningStats.variance`: `m2 / (count - 1)` for `count ≥ 2`, else 0. -/
def RunningStats.variance (st : RunningStats) : ℚ :=
  if st.count < 2 then 0 else st.m2 / ((st.count : ℚ) - 1)

/-! ## FuzzAnalyzer from src/fuzz_test.py -/

/-- State of `FuzzAnalyzer`.  `pending` is the dict identity ↦
`(send_time, spec)`; `deadlines` is the `heapq` min-heap embedded as a
list sorted by deadline; `missing_log` records each miss as the
`(spec, send_time)` pair that the source renders as a human-readable
string `f"{spec.label()} @ {send_time:.3f}s"`. -/
structure AnalyzerState where
  timeout_s : ℚ
  max_points : ℕ
  max_missing : ℕ
  pending : List (Identity × ℚ × MessageSpec)
  deadlines : List (ℚ × Identity)
  results_x : List ℚ
  results_y : List ℚ
  missing_log : List (MessageSpec × ℚ)
  stats : RunningStats
  start_time : Option ℚ
  last_latency_ms : Option ℚ
  missed_count : ℕ
  received_count : ℕ
  sent_count : ℕ
  plot_dirty : Bool
  new_result : Bool
deriving DecidableEq, Repr

/-- `FuzzAnalyzer.__init__(timeout_s, max_points, max_missing)`. -/
def mkAnalyzer (timeout : ℚ) (maxPoints maxMissing : ℕ) : AnalyzerState :=
  { timeout_s := timeout
    max_points := maxPoints
    max_missing := maxMissing
    pending := []
    deadlines := []
    results_x := []
    results_y := []
    missing_log := []
    stats := RunningStats.init
    start_time := none
    last_latency_ms := none
    missed_count := 0
    received_count := 0
    sent_count := 0
    plot_dirty := false
    new_result := false }

/-- `FuzzAnalyzer.start()` at wall-clock time `now`. -/
def startA (now : ℚ) (s : AnalyzerState) : AnalyzerState :=
  { s with
    start_time := some now
    pending := []
    deadlines := []
    results_x := []
    results_y := []
    missing_log := []
    stats := RunningStats.init
    last_latency_ms := none
    missed_count := 0
    received_count := 0
    sent_count := 0
    plot_dirty := true
    new_result := false }

/-- `FuzzAnalyzer.stop()`: clears the pending map and deadline queue. -/
def stopA (s : AnalyzerState) : AnalyzerState :=
  { s with pending := [], deadlines := [] }

/-- `heapq.heappush` on the deadline queue, embedded as sorted
insertion by deadline. -/
def pushDeadline (e : ℚ × Identity) :
    List (ℚ × Identity) → List (ℚ × Identity)
  | [] => [e]
  | f :: rest => if e.1 < f.1 then e :: f :: rest else f :: pushDeadline e rest

/-- `FuzzAnalyzer.register_sent(spec, send_time)`. -/
def registerSent (spec : MessageSpec) (sendTime : ℚ) (s : AnalyzerState) :
    AnalyzerState :=
  let s := if s.start_time = none then { s with start_time := some sendTime } else s
  { s with
    pending := aset spec.identity (sendTime, spec) s.pending
    deadlines := pushDeadline (sendTime + s.timeout_s, spec.identity) s.deadlines
    sent_count := s.sent_count + 1 }

/-- One iteration of the `FuzzAnalyzer.process_events` loop for a
single event. -/
def procEvent (now : ℚ) (s : AnalyzerState) (e : InEvent) : AnalyzerState :=
  match eventToSpec e with
  | none => s
  | some sp =>
    match alookup sp.identity s.pending with
    | none => s
    | some (st0, _) =>
      let et := e.timestamp.getD now
      let latency := max 0 ((et - st0) * 1000)
      let elapsed : ℚ := match s.start_time with
        | some t0 => if t0 = 0 then 0 else (st0 - t0) / 60
        | none => 0
      { s with
        pending := aerase sp.identity s.pending
        results_x := appendBounded s.max_points s.results_x elapsed
        results_y := appendBounded s.max_points s.results_y latency
        stats := s.stats.update latency
        last_latency_ms := some latency
        received_count := s.received_count + 1
        plot_dirty := true
        new_result := true }

/-- `FuzzAnalyzer.process_events(events, now)`. -/
def processEventsA (events : List InEvent) (now : ℚ) (s : AnalyzerState) :
    AnalyzerState :=
  events.foldl (procEvent now) s

/-- The `FuzzAnalyzer.check_timeouts` while loop over the deadline
queue, acting on `(deadlines, pending, missed_count, missing_log)`. -/
def ctAux (cap : ℕ) (now : ℚ) :
    List (ℚ × Identity) → List (Identity × ℚ × MessageSpec) → ℕ →
    List (MessageSpec × ℚ) →
    List (ℚ × Identity) × List (Identity × ℚ × MessageSpec) × ℕ ×
      List (MessageSpec × ℚ)
  | [], pend, missed, log => ([], pend, missed, log)
  | (d, i) :: rest, pend, missed, log =>
    if d ≤ now then
      match alookup i pend with
      | some (st0, sp) =>
          ctAux cap now rest (aerase i pend) (missed + 1)
            (appendBounded cap log (sp, st0))
      | none => ctAux cap now rest pend missed log
    else ((d, i) :: rest, pend, missed, log)

/-- `FuzzAnalyzer.check_timeouts(now)`. -/
def checkTimeoutsA (now : ℚ) (s : AnalyzerState) : AnalyzerState :=
  let r := ctAux s.max_missing now s.deadlines s.pending s.missed_count s.missing_log
  { s with
    deadlines := r.1
    pending := r.2.1
    missed_count := r.2.2.1
    missing_log := r.2.2.2 }

/-- The dict returned by `FuzzAnalyzer.get_stats()`.  Each slot is
nullable in the source's contract (any value may be `None`); slots the
code always fills with an integer carry `some`. -/
structure StatsView where
  mean : Option ℚ
  stddev : Option ℝ
  min : Option ℚ
  max : Option ℚ
  last : Option ℚ
  sent : Option ℕ
  received : Option ℕ
  missing : Option ℕ
  pending : Option ℕ

/-- `FuzzAnalyzer.get_stats()`: the five latency fields are `None`
until a sample exists; the four counters are always the current
integers.  `stddev` is the real square root of the Welford variance
(`variance ** 0.5` in the source). -/
noncomputable def getStats (s : AnalyzerState) : StatsView :=
  if s.stats.count = 0 then
    { mean := none, stddev := none, min := none, max := none, last := none
      sent := some s.sent_count, received := some s.received_count
      missing := some s.missed_count, pending := some s.pending.length }
  else
    { mean := some s.stats.mean
      stddev := some (Real.sqrt (s.stats.variance : ℝ))
      min := s.stats.min_val
      max := s.stats.max_val
      last := s.last_latency_ms
      sent := some s.sent_count, received := some s.received_count
      missing := some s.missed_count, pending := some s.pending.length }

/-- C5 counterexample: immediately after `start()` no latency sample
exists (`stats.count = 0`), yet `get_stats()` returns the integer `0`
for `sent` (and likewise for the other counters), not `None` — so not
every numeric field of the result is `None` before the first sample. -/
theorem getStats_counters_not_none :
    (startA 0 (mkAnalyzer 2 20000 200)).stats.count = 0 ∧
    (getStats (startA 0 (mkAnalyzer 2 20000 200))).sent = some 0 ∧
    (getStats (startA 0 (mkAnalyzer 2 20000 200))).sent ≠ none := by
  refine ⟨rfl, rfl, ?_⟩
  intro h
  simp [getStats, startA, mkAnalyzer, RunningStats.init] at h

/-- C5 (amended): until at least one latency sample has been recorded
(`stats.count = 0`), the five latency fields of `get_stats()` — mean,
stddev, min, max, last — are `None`, while sent, received, missing and
pendingCount always carry the current integer counters. -/
theorem getStats_none_until_sample (s : AnalyzerState)
    (h : s.stats.count = 0) :
    (getStats s).mean = none ∧ (getStats s).stddev = none ∧
    (getStats s).min = none ∧ (getStats s).max = none ∧
    (getStats s).last = none ∧
    (getStats s).sent = some s.sent_count ∧
    (getStats s).received = some s.received_count ∧
    (getStats s).missing = some s.missed_count ∧
    (getStats s).pending = some s.pending.length := by
  simp [getStats, h]

/-- Closed witness for `getStats_none_until_sample` at the freshly
started analyzer. -/
theorem getStats_none_until_sample_witness :
    (getStats (startA 0 (mkAnalyzer 2 20000 200))).mean = none ∧
    (getStats (startA 0 (mkAnalyzer 2 20000 200))).stddev = none ∧
    (getStats (startA 0 (mkAnalyzer 2 20000 200))).min = none ∧
    (getStats (startA 0 (mkAnalyzer 2 20000 200))).max = none ∧
    (getStats (startA 0 (mkAnalyzer 2 20000 200))).last = none ∧
    (getStats (startA 0 (mkAnalyzer 2 20000 200))).sent = some 0 := by
  obtain ⟨h1, h2, h3, h4, h5, h6, -⟩ :=
    getStats_none_until_sample (startA 0 (mkAnalyzer 2 20000 200)) rfl
  exact ⟨h1, h2, h3, h4, h5, h6⟩

/-! ## TimingModel from src/timing_model.py -/

/-- `TimingModel` state.  The preset name is a Python string compared
with `==` in the source (any unknown name falls through to the Chaos
branch), so it is embedded as a `String`. -/
structure TimingModel where
  mode : String
  preset : String
  intensity : ℚ
  base_rate : ℚ
  jitter_pct : ℚ
  burst_prob : ℚ
  burst_size_min : ℤ
  burst_size_max : ℤ
  min_gap_ms : ℚ
  max_gap_ms : ℚ
  burst_remaining : ℕ
deriving DecidableEq, Repr

/-- `TimingModel.__init__`. -/
def mkTimingModel : TimingModel :=
  { mode := "preset", preset := "Steady", intensity := 1/2
    base_rate := 20, jitter_pct := 0, burst_prob := 0
    burst_size_min := 2, burst_size_max := 4
    min_gap_ms := 0, max_gap_ms := 1000
    burst_remaining := 0 }

/-- `TimingModel.set_preset(name, intensity)`. -/
def setPreset (name : String) (intensity : ℚ) (tm : TimingModel) : TimingModel :=
  { tm with mode := "preset", preset := name
            intensity := max 0 (min 1 intensity) }

/-- `TimingModel._start_burst(min_size, max_size)`: the `randint` draw
is the oracle parameter `size`; the burst counter becomes
`max(0, size - 1)`. -/
def startBurst (size : ℤ) (tm : TimingModel) : TimingModel :=
  { tm with burst_remaining := (size - 1).toNat }

/-- `TimingModel._next_delay_preset()`.  Oracle draws: `r` for
`random.random()`, `u` for `random.uniform(-1, 1)`, `size` for the
burst-size `randint`.  Returns the delay and the updated model. -/
def nextDelayPreset (r u : ℚ) (size : ℤ) (tm : TimingModel) :
    ℚ × TimingModel :=
  let p :=
    if tm.preset = "Steady" then
      (5 + 45 * tm.intensity, (0 : ℚ), (0 : ℚ), ((2 : ℤ), (3 : ℤ)), (0 : ℚ))
    else if tm.preset = "Jitter" then
      (5 + 45 * tm.intensity, 1/10 + 7/10 * tm.intensity, 0, (2, 4), 0)
    else if tm.preset = "Burst" then
      (5 + 25 * tm.intensity, 1/20 + 1/5 * tm.intensity,
        1/20 + 9/20 * tm.intensity, (2, 2 + ⌊8 * tm.intensity⌋), 0)
    else
      (10 + 60 * tm.intensity, 1/5 + 4/5 * tm.intensity,
        1/10 + 3/5 * tm.intensity, (2, 4 + ⌊10 * tm.intensity⌋), 0)
  let baseRate := p.1
  let jitterPct := p.2.1
  let burstProb := p.2.2.1
  let burstSize := p.2.2.2.1
  let minGapMs := p.2.2.2.2
  let baseInterval := 1 / baseRate
  if 0 < tm.burst_remaining then
    (max (minGapMs / 1000) 0, { tm with burst_remaining := tm.burst_remaining - 1 })
  else if r < burstProb then
    (max (minGapMs / 1000) 0, startBurst (max burstSize.1 (min burstSize.2 size)) tm)
  else
    let jitter := u * jitterPct * baseInterval
    (max 0 (baseInterval + jitter), tm)

/-- `TimingModel._next_delay_full()`, same oracle conventions. -/
def nextDelayFull (r u : ℚ) (size : ℤ) (tm : TimingModel) :
    ℚ × TimingModel :=
  let baseInterval := 1 / tm.base_rate
  if 0 < tm.burst_remaining then
    (max (tm.min_gap_ms / 1000) 0, { tm with burst_remaining := tm.burst_remaining - 1 })
  else if r < tm.burst_prob then
    (max (tm.min_gap_ms / 1000) 0,
      startBurst (max tm.burst_size_min (min tm.burst_size_max size)) tm)
  else
    let jitter := u * tm.jitter_pct * baseInterval
    let delay := max (baseInterval + jitter) (tm.min_gap_ms / 1000)
    (max 0 (min delay (tm.max_gap_ms / 1000)), tm)

/-- `TimingModel.next_delay_s()`: dispatch on mode. -/
def nextDelayS (r u : ℚ) (size : ℤ) (tm : TimingModel) : ℚ × TimingModel :=
  if tm.mode = "full" then nextDelayFull r u size tm
  else nextDelayPreset r u size tm

/-- C8: in preset mode with preset Steady, intensity 0 and a clean
burst state (burst counter 0), `next_delay_s()` returns exactly
`1/5 = 0.2` seconds and leaves the model unchanged, for every possible
state of the random number generator (`random.random()` draw `r ≥ 0`,
arbitrary uniform and randint draws). -/
theorem nextDelay_steady_zero (r u : ℚ) (size : ℤ) (tm : TimingModel)
    (hmode : tm.mode = "preset") (hname : tm.preset = "Steady")
    (hint : tm.intensity = 0) (hburst : tm.burst_remaining = 0)
    (hr : 0 ≤ r) :
    nextDelayS r u size tm = (1/5, tm) := by
  have hm : ¬tm.mode = "full" := by rw [hmode]; decide
  have hrb : ¬r < 0 := not_lt.mpr hr
  simp only [nextDelayS, if_neg hm, nextDelayPreset, hname, hint, hburst,
    if_pos rfl]
  norm_num [hr]

/-- Closed witness for `nextDelay_steady_zero`: the default model with
`set_preset("Steady", 0)` applied, draws `r = 1/2`, `u = -1/3`,
`size = 7`. -/
theorem nextDelay_steady_zero_witness :
    nextDelayS (1/2) (-1/3) 7 (setPreset "Steady" 0 mkTimingModel) =
      (1/5, setPreset "Steady" 0 mkTimingModel) :=
  nextDelay_steady_zero (1/2) (-1/3) 7 _ rfl rfl (by decide) rfl (by norm_num)

/-! ## FuzzGenerator from src/fuzz_test.py -/

/-- The note-off flush loop shared by `FuzzGenerator._flush_note_offs`
and `EnduranceLatencyMonitor._flush_note_offs`: pop every schedule
entry `(release_time, note, channel)` with `release_time ≤ now` from
the front, sending `send_note(channel, note, 0)` for each. -/
def flushSchedule (now : ℚ) :
    List (ℚ × ℤ × ℤ) → List (ℚ × ℤ × ℤ) × List Send
  | [] => ([], [])
  | (t, noteNum, ch) :: rest =>
    if t ≤ now then
      let r := flushSchedule now rest
      (r.1, Send.note ch noteNum 0 :: r.2)
    else ((t, noteNum, ch) :: rest, [])

/-- State of `FuzzGenerator` (`src/fuzz_test.py`). -/
structure GenState where
  note_length_s : ℚ
  max_send_per_tick : ℕ
  enabled : Bool
  mode : String
  single_type : MType
  allowed_types : List MType
  vary_number : Bool
  vary_value : Bool
  randomize_channel : Bool
  next_send_time : Option ℚ
  note_off_schedule : List (ℚ × ℤ × ℤ)
  sent_count : ℕ
deriving DecidableEq, Repr

/-- `FuzzGenerator.__init__(midi, timing, note_length_ms, max_send_per_tick)`. -/
def mkGenerator (noteLengthMs : ℚ) (maxSendPerTick : ℕ) : GenState :=
  { note_length_s := max 0 (noteLengthMs / 1000)
    max_send_per_tick := maxSendPerTick
    enabled := false
    mode := "single"
    single_type := .cc
    allowed_types := allTypes
    vary_number := true
    vary_value := true
    randomize_channel := false
    next_send_time := none
    note_off_schedule := []
    sent_count := 0 }

/-- `FuzzGenerator.start()` at time `now`. -/
def genStart (now : ℚ) (g : GenState) : GenState :=
  { g with enabled := true, next_send_time := some now
           note_off_schedule := [], sent_count := 0 }

/-- `FuzzGenerator.stop()`.  The second component is the list of MIDI
messages the call emits: the source sends nothing on stop — it only
clears the note-off schedule. -/
def genStop (g : GenState) : GenState × List Send :=
  ({ g with enabled := false, next_send_time := none
            note_off_schedule := [] }, [])

/-- `FuzzGenerator._send_spec(spec, now)`: emit exactly one transport
call for the spec; a NOTE type additionally schedules its note-off
when the note length is positive. -/
def sendSpecG (now : ℚ) (sp : MessageSpec) (g : GenState) :
    GenState × List Send :=
  match sp.mtype with
  | .note =>
      ({ g with note_off_schedule :=
          g.note_off_schedule ++
            (if 0 < g.note_length_s
              then [(now + g.note_length_s, sp.number, sp.channel)] else []) },
        [Send.note sp.channel sp.number sp.value])
  | .cc => (g, [Send.cc sp.channel sp.number sp.value])
  | .cc14 => (g, [Send.cc14 sp.channel sp.number sp.value])
  | .nrpn => (g, [Send.nrpn sp.channel sp.number sp.value])
  | .pc => (g, [Send.pc sp.channel sp.number])
  | .pb => (g, [Send.pb sp.channel sp.value])

/-- The bounded retry loop of `FuzzGenerator._generate_unique_spec`:
`gen` is the oracle stream standing for the seeded RNG behind
`_generate_spec` (each call consumes the next index), `ks` the key set
of `analyzer.pending`, `fuel` the remaining attempts.  Returns the
first collision-free candidate together with the next oracle index, or
`none` once the attempts are exhausted. -/
def genUniqueAux (gen : ℕ → MessageSpec) (ks : List Identity) :
    ℕ → ℕ → Option (MessageSpec × ℕ)
  | _, 0 => none
  | idx, fuel + 1 =>
      let sp := gen idx
      if sp.identity ∈ ks then genUniqueAux gen ks (idx + 1) fuel
      else some (sp, idx + 1)

/-- `FuzzGenerator._generate_unique_spec`: at most 50 attempts. -/
def genUniqueSpec (gen : ℕ → MessageSpec) (ks : List Identity) (idx : ℕ) :
    Option (MessageSpec × ℕ) :=
  genUniqueAux gen ks idx 50

/-- The send loop of `FuzzGenerator.tick`: while `now ≥ next_send_time`
and fewer than `max_send_per_tick` sends have been made, draw a
collision-free spec (or break), send it, register it with the
analyzer, and advance `next_send_time` by the next timing-model delay
(oracle stream `delays`).  `fuel` is `max_send_per_tick - send_count`,
the loop variant of the source. -/
def genLoop (gen : ℕ → MessageSpec) (delays : ℕ → ℚ) (now : ℚ) :
    ℕ → ℕ → ℕ → GenState → AnalyzerState → List Send →
    GenState × AnalyzerState × List Send
  | 0, _, _, g, a, acc => (g, a, acc)
  | fuel + 1, idx, didx, g, a, acc =>
    if now < g.next_send_time.getD now then (g, a, acc)
    else
      match genUniqueSpec gen (keysOf a.pending) idx with
      | none => (g, a, acc)
      | some (sp, idx') =>
        let r := sendSpecG now sp g
        let a1 := registerSent sp now a
        let g2 := { r.1 with sent_count := r.1.sent_count + 1
                             next_send_time := some (now + delays didx) }
        genLoop gen delays now fuel idx' (didx + 1) g2 a1 (acc ++ r.2)

/-- `FuzzGenerator.tick(now, selected_channel, analyzer)`.  The
selected channel is absorbed into the candidate oracle `gen` (it only
feeds `_generate_spec`, whose random draws `gen` stands for). -/
def genTick (gen : ℕ → MessageSpec) (delays : ℕ → ℚ) (now : ℚ)
    (idx didx : ℕ) (g : GenState) (a : AnalyzerState) :
    GenState × AnalyzerState × List Send :=
  if g.enabled then
    let f := flushSchedule now g.note_off_schedule
    let g1 := { g with note_off_schedule := f.1 }
    let g2 := if g1.next_send_time = none
              then { g1 with next_send_time := some now } else g1
    genLoop gen delays now g2.max_send_per_tick idx didx g2 a f.2
  else (g, a, [])

/-! ## Bounded retry and per-tick cap (FuzzGenerator) -/

theorem genUniqueAux_not_mem (gen : ℕ → MessageSpec) (ks : List Identity) :
    ∀ (fuel idx : ℕ) (sp : MessageSpec) (j : ℕ),
    genUniqueAux gen ks idx fuel = some (sp, j) → sp.identity ∉ ks := by
  intro fuel
  induction fuel with
  | zero => intro idx sp j h; simp [genUniqueAux] at h
  | succ n ih =>
    intro idx sp j h
    simp only [genUniqueAux] at h
    by_cases hm : (gen idx).identity ∈ ks
    · rw [if_pos hm] at h
      exact ih (idx + 1) sp j h
    · rw [if_neg hm] at h
      obtain ⟨rfl, -⟩ : gen idx = sp ∧ idx + 1 = j := by
        injection h with h'; injection h' with h1 h2; exact ⟨h1, h2⟩
      exact hm

theorem genUniqueAux_exhaust (gen : ℕ → MessageSpec) (ks : List Identity) :
    ∀ (fuel idx : ℕ), (∀ m, m < fuel → (gen (idx + m)).identity ∈ ks) →
    genUniqueAux gen ks idx fuel = none := by
  intro fuel
  induction fuel with
  | zero => intro idx _; rfl
  | succ n ih =>
    intro idx h
    have h0 : (gen idx).identity ∈ ks := by
      have := h 0 (Nat.succ_pos n); simpa using this
    simp only [genUniqueAux, if_pos h0]
    refine ih (idx + 1) ?_
    intro m hm
    have := h (m + 1) (by omega)
    have e : idx + (m + 1) = idx + 1 + m := by omega
    rwa [e] at this

theorem sendSpecG_one_send (now : ℚ) (sp : MessageSpec) (g : GenState) :
    (sendSpecG now sp g).2.length = 1 := by
  cases h : sp.mtype <;> simp [sendSpecG, h]

theorem registerSent_sent_count (sp : MessageSpec) (t : ℚ) (a : AnalyzerState) :
    (registerSent sp t a).sent_count = a.sent_count + 1 := by
  unfold registerSent
  by_cases h : a.start_time = none <;> simp [h]

theorem registerSent_pending (sp : MessageSpec) (t : ℚ) (a : AnalyzerState) :
    (registerSent sp t a).pending = aset sp.identity (t, sp) a.pending := by
  unfold registerSent
  by_cases h : a.start_time = none <;> simp [h]

theorem aset_not_mem {κ α : Type} [DecidableEq κ] (k : κ) (v : α) :
    ∀ l : List (κ × α), k ∉ keysOf l → aset k v l = l ++ [(k, v)] := by
  intro l
  induction l with
  | nil => intro _; rfl
  | cons hd tl ih =>
    intro h
    obtain ⟨k', v'⟩ := hd
    simp only [keysOf, List.map_cons, List.mem_cons, not_or] at h
    obtain ⟨hne, hrest⟩ := h
    have hne' : ¬k' = k := fun e => hne e.symm
    simp only [aset, if_neg hne', List.cons_append, List.cons.injEq, true_and]
    exact ih hrest

theorem keysOf_append {κ α : Type} (l1 l2 : List (κ × α)) :
    keysOf (l1 ++ l2) = keysOf l1 ++ keysOf l2 := by
  simp [keysOf]

theorem registerSent_nodup (sp : MessageSpec) (t : ℚ) (a : AnalyzerState)
    (hni : sp.identity ∉ keysOf a.pending)
    (hnd : (keysOf a.pending).Nodup) :
    (keysOf (registerSent sp t a).pending).Nodup := by
  rw [registerSent_pending, aset_not_mem _ _ _ hni, keysOf_append]
  simp only [keysOf, List.map_cons, List.map_nil]
  rw [List.nodup_append]
  refine ⟨hnd, List.nodup_singleton _, ?_⟩
  intro x hx hx'
  simp only [List.mem_singleton] at hx'
  exact hni (hx' ▸ hx)

theorem flushSchedule_len (now : ℚ) :
    ∀ sched : List (ℚ × ℤ × ℤ),
    (flushSchedule now sched).2.length ≤ sched.length := by
  intro sched
  induction sched with
  | nil => simp [flushSchedule]
  | cons hd tl ih =>
    obtain ⟨t, noteNum, ch⟩ := hd
    simp only [flushSchedule]
    by_cases h : t ≤ now
    · simp only [if_pos h, List.length_cons]
      omega
    · simp [if_neg h]

theorem genLoop_props (gen : ℕ → MessageSpec) (delays : ℕ → ℚ) (now : ℚ) :
    ∀ (fuel idx didx : ℕ) (g : GenState) (a : AnalyzerState) (acc : List Send),
    (genLoop gen delays now fuel idx didx g a acc).2.1.sent_count ≤
      a.sent_count + fuel ∧
    (genLoop gen delays now fuel idx didx g a acc).2.2.length ≤
      acc.length + fuel ∧
    ((keysOf a.pending).Nodup →
      (keysOf (genLoop gen delays now fuel idx didx g a acc).2.1.pending).Nodup) := by
  intro fuel
  induction fuel with
  | zero => intro idx didx g a acc; simp [genLoop]
  | succ n ih =>
    intro idx didx g a acc
    simp only [genLoop]
    by_cases hc : now < g.next_send_time.getD now
    · simp only [if_pos hc]
      refine ⟨by omega, by omega, fun h => h⟩
    · simp only [if_neg hc]
      cases hgen : genUniqueSpec gen (keysOf a.pending) idx with
      | none =>
        simp only [hgen]
        refine ⟨by omega, by omega, fun h => h⟩
      | some pr =>
        obtain ⟨sp, idx'⟩ := pr
        simp only [hgen]
        have hni : sp.identity ∉ keysOf a.pending :=
          genUniqueAux_not_mem gen (keysOf a.pending) 50 idx sp idx' hgen
        refine ⟨?_, ?_, ?_⟩
        · exact le_trans (ih idx' (didx + 1) _ _ _).1
            (by rw [registerSent_sent_count]; omega)
        · exact le_trans (ih idx' (didx + 1) _ _ _).2.1
            (by rw [List.length_append, sendSpecG_one_send]; omega)
        · intro hnd
          exact (ih idx' (didx + 1) _ _ _).2.2
            (registerSent_nodup sp now a hni hnd)

/-- C9: a single `FuzzGenerator.tick` call always terminates (the send
loop's variant is the per-tick cap, embedded as structural fuel) and
makes at most `max_send_per_tick` new registrations; its total
transport traffic is bounded by the flushed note-off backlog plus the
cap; it preserves the analyzer's one-pending-entry-per-identity key
discipline; and the collision retry of `_generate_unique_spec` returns
only identities not currently pending, giving up (`none`, so the tick
stops generating for this cycle) after at most 50 colliding candidates
instead of blocking. -/
theorem genTick_bounded (gen : ℕ → MessageSpec) (delays : ℕ → ℚ)
    (now : ℚ) (idx didx : ℕ) (g : GenState) (a : AnalyzerState) :
    (genTick gen delays now idx didx g a).2.1.sent_count ≤
      a.sent_count + g.max_send_per_tick ∧
    (genTick gen delays now idx didx g a).2.2.length ≤
      g.note_off_schedule.length + g.max_send_per_tick ∧
    ((keysOf a.pending).Nodup →
      (keysOf (genTick gen delays now idx didx g a).2.1.pending).Nodup) ∧
    (∀ (ks : List Identity) (i j : ℕ) (sp : MessageSpec),
      genUniqueSpec gen ks i = some (sp, j) → sp.identity ∉ ks) ∧
    (∀ (ks : List Identity) (i : ℕ),
      (∀ m, m < 50 → (gen (i + m)).identity ∈ ks) →
      genUniqueSpec gen ks i = none) := by
  refine ⟨?_, ?_, ?_, ?_, ?_⟩
  case _ =>
    unfold genTick
    by_cases he : g.enabled
    · simp only [if_pos he]
      exact le_trans ((genLoop_props gen delays now _ idx didx _ a _).1)
        (by split <;> exact Nat.le_refl _)
    · simp [if_neg he]
  case _ =>
    unfold genTick
    by_cases he : g.enabled
    · simp only [if_pos he]
      exact le_trans ((genLoop_props gen delays now _ idx didx _ a _).2.1)
        (by split <;> exact Nat.add_le_add_right (flushSchedule_len now g.note_off_schedule) g.max_send_per_tick)
    · simp [if_neg he]
  case _ =>
    intro hnd
    unfold genTick
    by_cases he : g.enabled
    · simp only [if_pos he]
      exact (genLoop_props gen delays now _ idx didx _ a _).2.2 hnd
    · simp [if_neg he, hnd]
  case _ =>
    intro ks i j sp h
    exact genUniqueAux_not_mem gen ks 50 i sp j h
  case _ =>
    intro ks i h
    exact genUniqueAux_exhaust gen ks 50 i h

/-- Closed witness for `genTick_bounded` at a concrete configuration
(constant candidate oracle, unit delays, freshly started generator and
analyzer). -/
theorem genTick_bounded_witness :
    (genTick (fun _ => buildSpec .cc 0 74 64) (fun _ => 1) 0 0 0
        (genStart 0 (mkGenerator 100 50))
        (startA 0 (mkAnalyzer 2 20000 200))).2.1.sent_count ≤
      (startA 0 (mkAnalyzer 2 20000 200)).sent_count +
        (genStart 0 (mkGenerator 100 50)).max_send_per_tick ∧
    (keysOf (genTick (fun _ => buildSpec .cc 0 74 64) (fun _ => 1) 0 0 0
        (genStart 0 (mkGenerator 100 50))
        (startA 0 (mkAnalyzer 2 20000 200))).2.1.pending).Nodup := by
  obtain ⟨h1, -, h3, -, -⟩ :=
    genTick_bounded (fun _ => buildSpec .cc 0 74 64) (fun _ => 1) 0 0 0
      (genStart 0 (mkGenerator 100 50)) (startA 0 (mkAnalyzer 2 20000 200))
  exact ⟨h1, h3 (by simp [startA, mkAnalyzer, keysOf])⟩

/-! ## EnduranceLatencyMonitor from src/endurance_monitor.py -/

/-- `EnduranceLatencyMonitor._label_for_spec(spec)`. -/
def labelForSpec (sp : MessageSpec) : String :=
  match sp.mtype with
  | .note => "Note " ++ toString sp.number
  | .cc => "CC " ++ toString sp.number
  | .cc14 => "CC14 " ++ toString sp.number
  | .nrpn => "NRPN " ++ toString sp.number
  | .pc => "PC " ++ toString sp.number
  | .pb => "PB"

/-- The `active_probe` dict: `{send_time, deadline, channel, expected,
received}` with `expected : identity ↦ label` and
`received : label ↦ timestamp`. -/
structure Probe where
  send_time : ℚ
  deadline : ℚ
  channel : ℤ
  expected : List (Identity × String)
  received : List (String × ℚ)
deriving DecidableEq, Repr

/-- State of `EnduranceLatencyMonitor`.  `last_result` holds the
`(round_trip_ms, spread_ms, elapsed_min)` triple of the last completed
chord. -/
structure EnduranceState where
  enabled : Bool
  min_interval_s : ℚ
  max_interval_s : ℚ
  interval_s : ℚ
  probe_notes : List ℤ
  velocity : ℤ
  note_length_s : ℚ
  max_points : ℕ
  probe_types : List MType
  mod_enabled : Bool
  mod_freq_hz : ℚ
  mod_depth_s : ℚ
  start_time : Option ℚ
  next_probe_time : Option ℚ
  active_probe : Option Probe
  note_off_schedule : List (ℚ × ℤ × ℤ)
  results_x : List ℚ
  results_y : List ℚ
  offsets_x : List (String × List ℚ)
  offsets_y : List (String × List ℚ)
  offset_labels : List String
  last_result : Option (ℚ × ℚ × ℚ)
  missed_probes : ℕ
  probes_sent : ℕ
  plot_dirty : Bool
  new_result : Bool
deriving DecidableEq, Repr

/-- `EnduranceLatencyMonitor._build_offset_labels()`. -/
def buildOffsetLabels (s : EnduranceState) : List String :=
  s.probe_types.flatMap fun t =>
    match t with
    | .note => s.probe_notes.map fun n => "Note " ++ toString n
    | .cc => ["CC " ++ toString (probeDefaultNumber .cc)]
    | .cc14 => ["CC14 " ++ toString (probeDefaultNumber .cc14)]
    | .nrpn => ["NRPN " ++ toString (probeDefaultNumber .nrpn)]
    | .pc => ["PC " ++ toString (probeDefaultNumber .pc)]
    | .pb => ["PB"]

/-- `EnduranceLatencyMonitor._init_offset_buffers()`. -/
def initOffsetBuffers (s : EnduranceState) : EnduranceState :=
  let labels := buildOffsetLabels s
  { s with offset_labels := labels
           offsets_x := labels.map fun l => (l, [])
           offsets_y := labels.map fun l => (l, []) }

/-- `EnduranceLatencyMonitor.__init__(midi, interval_s, probe_notes,
velocity, note_length_ms, max_points)`; an empty/absent note list falls
back to `[60, 64, 67, 72]`. -/
def mkEndurance (intervalS : ℚ) (probeNotes : List ℤ) (velocity : ℤ)
    (noteLengthMs : ℚ) (maxPoints : ℕ) : EnduranceState :=
  initOffsetBuffers
    { enabled := false
      min_interval_s := 1/1000
      max_interval_s := 5
      interval_s := intervalS
      probe_notes := if probeNotes = [] then [60, 64, 67, 72] else probeNotes
      velocity := velocity
      note_length_s := max 0 (noteLengthMs / 1000)
      max_points := maxPoints
      probe_types := [.note]
      mod_enabled := false
      mod_freq_hz := 1/2
      mod_depth_s := 0
      start_time := none
      next_probe_time := none
      active_probe := none
      note_off_schedule := []
      results_x := []
      results_y := []
      offsets_x := []
      offsets_y := []
      offset_labels := []
      last_result := none
      missed_probes := 0
      probes_sent := 0
      plot_dirty := false
      new_result := false }

/-- `EnduranceLatencyMonitor.start()` at time `now`. -/
def startE (now : ℚ) (s : EnduranceState) : EnduranceState :=
  initOffsetBuffers
    { s with enabled := true
             start_time := some now
             next_probe_time := some now
             active_probe := none
             note_off_schedule := []
             results_x := []
             results_y := []
             last_result := none
             missed_probes := 0
             probes_sent := 0
             plot_dirty := true
             new_result := false }

/-- `EnduranceLatencyMonitor.stop()`.  The second component is the
list of MIDI messages the call emits: the source sends nothing — it
only drops the active probe and clears the note-off schedule. -/
def stopE (s : EnduranceState) : EnduranceState × List Send :=
  ({ s with enabled := false, active_probe := none
            note_off_schedule := [] }, [])

/-- `EnduranceLatencyMonitor.get_timeout_s()`:
`max(min_interval, min(2.0, interval * 0.8))`. -/
def getTimeoutE (s : EnduranceState) : ℚ :=
  max s.min_interval_s (min 2 (s.interval_s * (4/5)))

/-- `EnduranceLatencyMonitor._current_interval(now)`.  `sinVal` is the
oracle parameter standing for the transcendental
`sin(2π · mod_freq_hz · (now − start_time))` of the source; the claims
below hold for every value of it. -/
def currentInterval (sinVal : ℚ) (s : EnduranceState) : ℚ :=
  if s.mod_enabled = false ∨ s.mod_freq_hz ≤ 0 ∨ s.mod_depth_s ≤ 0 then
    s.interval_s
  else
    max s.min_interval_s
      (min s.max_interval_s (s.interval_s + s.mod_depth_s * sinVal))

/-- `EnduranceLatencyMonitor._send_spec(spec)`: the non-NOTE transport
dispatch (the source has no NOTE branch here; unknown types send
nothing). -/
def sendSpecE (sp : MessageSpec) : List Send :=
  match sp.mtype with
  | .note => []
  | .cc => [Send.cc sp.channel sp.number sp.value]
  | .cc14 => [Send.cc14 sp.channel sp.number sp.value]
  | .nrpn => [Send.nrpn sp.channel sp.number sp.value]
  | .pc => [Send.pc sp.channel sp.number]
  | .pb => [Send.pb sp.channel sp.value]

/-- The send loop of `EnduranceLatencyMonitor._send_probe`: walk the
configured probe types (and, for NOTE, the probe notes), accumulating
the `expected` map (identity ↦ label, duplicates collapsing as in a
dict), the emitted transport calls, and the note-off schedule
additions. -/
def probeBuild (now : ℚ) (ch : ℤ) (s : EnduranceState) :
    List (Identity × String) × List Send × List (ℚ × ℤ × ℤ) :=
  s.probe_types.foldl
    (fun acc t =>
      match t with
      | .note =>
          s.probe_notes.foldl
            (fun acc2 noteNum =>
              let sp := randomSpecNoVary .note ch noteNum s.velocity
              (aset sp.identity (labelForSpec sp) acc2.1,
                acc2.2.1 ++ [Send.note ch sp.number sp.value],
                acc2.2.2 ++
                  (if 0 < s.note_length_s
                    then [(now + s.note_length_s, sp.number, ch)] else [])))
            acc
      | t' =>
          let sp := randomSpecNoVary t' ch (probeDefaultNumber t')
            (probeDefaultValue t')
          (aset sp.identity (labelForSpec sp) acc.1,
            acc.2.1 ++ sendSpecE sp, acc.2.2))
    ([], [], [])

/-- `EnduranceLatencyMonitor._send_probe(now, channel)`: sends happen
during the loop; if nothing was expected (empty type/note config) no
probe becomes active, otherwise the new chord becomes the single
outstanding probe with deadline `now + get_timeout_s()`. -/
def sendProbeE (now : ℚ) (ch : ℤ) (s : EnduranceState) :
    EnduranceState × List Send :=
  let b := probeBuild now ch s
  let s1 := { s with note_off_schedule := s.note_off_schedule ++ b.2.2 }
  if b.1 = [] then (s1, b.2.1)
  else
    ({ s1 with
        active_probe := some
          { send_time := now, deadline := now + getTimeoutE s
            channel := ch, expected := b.1, received := [] }
        probes_sent := s.probes_sent + 1 }, b.2.1)

/-- `min` of a list of timestamps (guarded nonempty at the call site). -/
def listMin : List ℚ → ℚ
  | [] => 0
  | x :: xs => xs.foldl min x

/-- `max` of a list of timestamps (guarded nonempty at the call site). -/
def listMax : List ℚ → ℚ
  | [] => 0
  | x :: xs => xs.foldl max x

/-- Append one point to the per-label bounded offset series
(`self.offsets_x[label].append(...)`). -/
def aappend (cap : ℕ) (k : String) (x : ℚ) (l : List (String × List ℚ)) :
    List (String × List ℚ) :=
  aset k (appendBounded cap ((alookup k l).getD []) x) l

/-- `EnduranceLatencyMonitor._finalize_probe(complete)`: drop the
active probe; a miss (`complete=False`, or nothing received) only
increments the missed counter; a completed chord computes round-trip,
spread and per-label offsets and appends them to the bounded series. -/
def finalizeProbeE (complete : Bool) (s : EnduranceState) : EnduranceState :=
  match s.active_probe with
  | none => s
  | some p =>
    let s1 := { s with active_probe := none }
    if complete = false ∨ p.received = [] then
      { s1 with missed_probes := s1.missed_probes + 1 }
    else
      let recvTimes := p.received.map Prod.snd
      let firstT := listMin recvTimes
      let lastT := listMax recvTimes
      let roundTrip := max 0 ((firstT - p.send_time) * 1000)
      let spread := max 0 ((lastT - firstT) * 1000)
      let elapsed : ℚ := match s.start_time with
        | some t0 => if t0 = 0 then 0 else (p.send_time - t0) / 60
        | none => 0
      let s2 := { s1 with
        results_x := appendBounded s.max_points s1.results_x elapsed
        results_y := appendBounded s.max_points s1.results_y spread }
      let s3 := p.received.foldl
        (fun st lp =>
          let offset := max 0 ((lp.2 - firstT) * 1000)
          let st1 := if alookup lp.1 st.offsets_x = none
            then { st with offsets_x := aset lp.1 [] st.offsets_x
                           offsets_y := aset lp.1 [] st.offsets_y }
            else st
          { st1 with
              offsets_x := aappend s.max_points lp.1 elapsed st1.offsets_x
              offsets_y := aappend s.max_points lp.1 offset st1.offsets_y })
        s2
      { s3 with last_result := some (roundTrip, spread, elapsed)
                plot_dirty := true, new_result := true }

/-- `EnduranceLatencyMonitor._check_timeout(now)`. -/
def checkTimeoutE (now : ℚ) (s : EnduranceState) : EnduranceState :=
  match s.active_probe with
  | none => s
  | some p => if p.deadline ≤ now then finalizeProbeE false s else s

/-- The event loop of `EnduranceLatencyMonitor._process_events`: match
events against the expected-but-not-yet-received labels of the active
probe, recording timestamps, finalizing as complete (and stopping)
once every expected label has one. -/
def peLoop (now : ℚ) : List InEvent → EnduranceState → Probe → EnduranceState
  | [], s, p => { s with active_probe := some p }
  | e :: rest, s, p =>
    match eventToSpec e with
    | none => peLoop now rest s p
    | some sp =>
      match alookup sp.identity p.expected with
      | none => peLoop now rest s p
      | some label =>
        match alookup label p.received with
        | some _ => peLoop now rest s p
        | none =>
          let et := e.timestamp.getD now
          let p' := { p with received := aset label et p.received }
          if p'.received.length = p'.expected.length then
            finalizeProbeE true { s with active_probe := some p' }
          else peLoop now rest s p'

/-- `EnduranceLatencyMonitor._process_events(events, now)`. -/
def procEventsE (events : List InEvent) (now : ℚ) (s : EnduranceState) :
    EnduranceState :=
  match s.active_probe with
  | none => s
  | some p => peLoop now events s p

/-- `EnduranceLatencyMonitor._maybe_send_probe(now, selected_channel)`
(with `sinVal` the sine oracle of `_current_interval`): once the probe
time is due, any still-outstanding chord is finalized as missed first,
then the new chord is built and sent and the next probe time advanced
by the (possibly modulated) interval. -/
def maybeSendProbe (sinVal now : ℚ) (selCh : ℤ) (s : EnduranceState) :
    EnduranceState × List Send :=
  let npt := s.next_probe_time.getD now
  let s0 := { s with next_probe_time := some npt }
  if now < npt then (s0, [])
  else
    let s1 := if s0.active_probe.isSome then finalizeProbeE false s0 else s0
    let ch := if selCh = -1 then 0 else selCh
    let r := sendProbeE now ch s1
    ({ r.1 with next_probe_time := some (now + currentInterval sinVal r.1) }, r.2)

/-- `EnduranceLatencyMonitor.tick(events, now, selected_channel)`. -/
def tickE (sinVal : ℚ) (events : List InEvent) (now : ℚ) (selCh : ℤ)
    (s : EnduranceState) :
    EnduranceState × List Send × Option (ℚ × ℚ × ℚ) :=
  if s.enabled = false then (s, [], none)
  else
    let f := flushSchedule now s.note_off_schedule
    let s1 := { s with note_off_schedule := f.1 }
    let s2 := procEventsE events now s1
    let s3 := checkTimeoutE now s2
    let r := maybeSendProbe sinVal now selCh s3
    if r.1.new_result then
      ({ r.1 with new_result := false }, f.2 ++ r.2, r.1.last_result)
    else (r.1, f.2 ++ r.2, none)

/-! ## Miss finalization and overlap (EnduranceLatencyMonitor) -/

/-- Shared helper: finalizing with `complete=False` while a probe is
outstanding is exactly "drop the probe, bump the missed counter". -/
theorem finalizeE_false_eq (s : EnduranceState) (p : Probe)
    (h : s.active_probe = some p) :
    finalizeProbeE false s =
      { s with active_probe := none, missed_probes := s.missed_probes + 1 } := by
  unfold finalizeProbeE
  rw [h]
  simp

/-- Shared helper: `_send_probe` never touches the missed counter. -/
theorem sendProbeE_missed (now : ℚ) (ch : ℤ) (s : EnduranceState) :
    (sendProbeE now ch s).1.missed_probes = s.missed_probes := by
  unfold sendProbeE
  by_cases hb : (probeBuild now ch s).1 = [] <;> simp [hb]

/-- C3: a chord probe finalized as missed changes exactly one thing:
`missed_probes` grows by 1 (and the probe stops being outstanding); no
point is appended to the main series or to any per-label offset
series, and `last_result` is unchanged — the whole state is the record
update of those two fields, both for a direct miss finalization and
for the deadline path of `_check_timeout`. -/
theorem finalize_missed_frame (s : EnduranceState) (p : Probe) (now : ℚ)
    (h : s.active_probe = some p) :
    finalizeProbeE false s =
      { s with active_probe := none, missed_probes := s.missed_probes + 1 } ∧
    (finalizeProbeE false s).missed_probes = s.missed_probes + 1 ∧
    (finalizeProbeE false s).results_x = s.results_x ∧
    (finalizeProbeE false s).results_y = s.results_y ∧
    (finalizeProbeE false s).offsets_x = s.offsets_x ∧
    (finalizeProbeE false s).offsets_y = s.offsets_y ∧
    (finalizeProbeE false s).last_result = s.last_result ∧
    (p.deadline ≤ now →
      checkTimeoutE now s =
        { s with active_probe := none
                 missed_probes := s.missed_probes + 1 }) := by
  have he := finalizeE_false_eq s p h
  refine ⟨he, by rw [he], by rw [he], by rw [he], by rw [he], by rw [he],
    by rw [he], ?_⟩
  intro hd
  have hct : checkTimeoutE now s = finalizeProbeE false s := by
    unfold checkTimeoutE
    rw [h]
    exact if_pos hd
  rw [hct, he]

/-- Closed witness for `finalize_missed_frame`: the default monitor,
started at 0, with a concrete outstanding chord at deadline 4,
finalized at `now = 5`. -/
theorem finalize_missed_frame_witness :
    (finalizeProbeE false
        { startE 0 (mkEndurance 5 [] 100 50 20000) with
            active_probe := some
              { send_time := 0, deadline := 4, channel := 0
                expected := [((.note, 0, 60, 100), "Note 60")]
                received := [] } }).missed_probes =
      ({ startE 0 (mkEndurance 5 [] 100 50 20000) with
          active_probe := some
            { send_time := 0, deadline := 4, channel := 0
              expected := [((.note, 0, 60, 100), "Note 60")]
              received := [] } } : EnduranceState).missed_probes + 1 ∧
    (finalizeProbeE false
        { startE 0 (mkEndurance 5 [] 100 50 20000) with
            active_probe := some
              { send_time := 0, deadline := 4, channel := 0
                expected := [((.note, 0, 60, 100), "Note 60")]
                received := [] } }).last_result =
      ({ startE 0 (mkEndurance 5 [] 100 50 20000) with
          active_probe := some
            { send_time := 0, deadline := 4, channel := 0
              expected := [((.note, 0, 60, 100), "Note 60")]
              received := [] } } : EnduranceState).last_result := by
  obtain ⟨-, h2, -, -, -, -, h7, -⟩ :=
    finalize_missed_frame
      { startE 0 (mkEndurance 5 [] 100 50 20000) with
          active_probe := some
            { send_time := 0, deadline := 4, channel := 0
              expected := [((.note, 0, 60, 100), "Note 60")]
              received := [] } }
      { send_time := 0, deadline := 4, channel := 0
        expected := [((.note, 0, 60, 100), "Note 60")]
        received := [] }
      5 rfl
  exact ⟨h2, h7⟩

/-- C2: the endurance prober never has two chords outstanding: whenever
the probe time is due (`next_probe_time = some t`, `t ≤ now`) while a
chord `p` is still outstanding, `_maybe_send_probe` first finalizes `p`
as missed (missed counter + 1) — with no condition on `p`'s own
deadline — and only then builds and sends the new chord, which (when
the configuration expects at least one identity) becomes the single
outstanding probe, sent at `now` with deadline `now + get_timeout_s()`. -/
theorem maybeSend_overlap (sinVal now : ℚ) (selCh : ℤ) (s : EnduranceState)
    (p : Probe) (t : ℚ)
    (hnpt : s.next_probe_time = some t) (hle : t ≤ now)
    (hact : s.active_probe = some p) :
    (maybeSendProbe sinVal now selCh s).1.missed_probes =
      s.missed_probes + 1 ∧
    maybeSendProbe sinVal now selCh s =
      (let r := sendProbeE now (if selCh = -1 then 0 else selCh)
          (finalizeProbeE false s)
       ({ r.1 with
            next_probe_time := some (now + currentInterval sinVal r.1) },
         r.2)) ∧
    ((probeBuild now (if selCh = -1 then 0 else selCh) s).1 ≠ [] →
      ∃ np, (maybeSendProbe sinVal now selCh s).1.active_probe = some np ∧
        np.send_time = now ∧ np.received = [] ∧
        np.deadline = now + getTimeoutE s) := by
  have hs0 : ({ s with next_probe_time := some t } : EnduranceState) = s := by
    rw [← hnpt]
  have hmain : maybeSendProbe sinVal now selCh s =
      (let r := sendProbeE now (if selCh = -1 then 0 else selCh)
          (finalizeProbeE false s)
       ({ r.1 with
            next_probe_time := some (now + currentInterval sinVal r.1) },
         r.2)) := by
    unfold maybeSendProbe
    rw [hnpt]
    simp only [Option.getD_some]
    rw [hs0, if_neg (not_lt.mpr hle), hact]
    simp only [Option.isSome_some, if_true]
  refine ⟨?_, hmain, ?_⟩
  · rw [hmain]
    show (sendProbeE now (if selCh = -1 then 0 else selCh)
      (finalizeProbeE false s)).1.missed_probes = s.missed_probes + 1
    rw [sendProbeE_missed, finalizeE_false_eq s p hact]
  · intro hb
    rw [hmain]
    have hb' : (probeBuild now (if selCh = -1 then 0 else selCh)
        (finalizeProbeE false s)).1 ≠ [] := by
      rw [finalizeE_false_eq s p hact]
      exact hb
    refine ⟨{ send_time := now
              deadline := now + getTimeoutE (finalizeProbeE false s)
              channel := if selCh = -1 then 0 else selCh
              expected := (probeBuild now (if selCh = -1 then 0 else selCh)
                (finalizeProbeE false s)).1
              received := [] }, ?_, rfl, rfl, ?_⟩
    · show (sendProbeE now (if selCh = -1 then 0 else selCh)
        (finalizeProbeE false s)).1.active_probe = _
      unfold sendProbeE
      rw [if_neg hb']
    · show now + getTimeoutE (finalizeProbeE false s) = now + getTimeoutE s
      rw [finalizeE_false_eq s p hact]
      rfl

/-- Closed witness for `maybeSend_overlap`: the default monitor started
at 0 with a concrete outstanding chord (deadline 4, not yet elapsed at
`now = 2`), probe due at `t = 0`. -/
theorem maybeSend_overlap_witness :
    (maybeSendProbe 0 2 0
        { startE 0 (mkEndurance 5 [] 100 50 20000) with
            active_probe := some
              { send_time := 0, deadline := 4, channel := 0
                expected := [((.note, 0, 60, 100), "Note 60")]
                received := [] } }).1.missed_probes =
      ({ startE 0 (mkEndurance 5 [] 100 50 20000) with
          active_probe := some
            { send_time := 0, deadline := 4, channel := 0
              expected := [((.note, 0, 60, 100), "Note 60")]
              received := [] } } : EnduranceState).missed_probes + 1 ∧
    (∃ np, (maybeSendProbe 0 2 0
        { startE 0 (mkEndurance 5 [] 100 50 20000) with
            active_probe := some
              { send_time := 0, deadline := 4, channel := 0
                expected := [((.note, 0, 60, 100), "Note 60")]
                received := [] } }).1.active_probe = some np ∧
      np.send_time = 2 ∧ np.received = [] ∧
      np.deadline = 2 + getTimeoutE
        { startE 0 (mkEndurance 5 [] 100 50 20000) with
            active_probe := some
              { send_time := 0, deadline := 4, channel := 0
                expected := [((.note, 0, 60, 100), "Note 60")]
                received := [] } }) := by
  obtain ⟨h1, -, h3⟩ :=
    maybeSend_overlap 0 2 0
      { startE 0 (mkEndurance 5 [] 100 50 20000) with
          active_probe := some
            { send_time := 0, deadline := 4, channel := 0
              expected := [((.note, 0, 60, 100), "Note 60")]
              received := [] } }
      { send_time := 0, deadline := 4, channel := 0
        expected := [((.note, 0, 60, 100), "Note 60")]
        received := [] }
      0 rfl (by norm_num) rfl
  exact ⟨h1, h3 (by decide)⟩

/-! ## stop() behavior (engine components) -/

/-- C6 evaluation at the failing input.  `stop()` on each component is
idempotent and clears all pending/deadline entries, but it does NOT
leave the send stream free of orphans: with a note-on for note 60
already sent and its note-off scheduled (release 0.1 s away), the
generator's `stop()` emits no MIDI message, discards the scheduled
note-off, and a stopped generator never sends again — so the note-off
for note 60 is never sent, contradicting the no-orphaned-sends clause
of the claim.  The endurance monitor's `stop()` drops its schedule the
same way. -/
theorem stop_discards_scheduled_noteoffs :
    (genStop { genStart 0 (mkGenerator 100 50) with
        note_off_schedule := [(1/10, 60, 0)] }).2 = [] ∧
    (genStop { genStart 0 (mkGenerator 100 50) with
        note_off_schedule := [(1/10, 60, 0)] }).1.note_off_schedule = [] ∧
    (∀ (gen : ℕ → MessageSpec) (delays : ℕ → ℚ) (now : ℚ) (idx didx : ℕ)
        (a : AnalyzerState),
      genTick gen delays now idx didx
          (genStop { genStart 0 (mkGenerator 100 50) with
              note_off_schedule := [(1/10, 60, 0)] }).1 a =
        ((genStop { genStart 0 (mkGenerator 100 50) with
            note_off_schedule := [(1/10, 60, 0)] }).1, a, [])) ∧
    (∀ g : GenState, genStop (genStop g).1 = genStop g) ∧
    (∀ a : AnalyzerState, (stopA a).pending = [] ∧ (stopA a).deadlines = [] ∧
      stopA (stopA a) = stopA a) ∧
    (∀ e : EnduranceState, (stopE e).2 = [] ∧
      (stopE e).1.note_off_schedule = [] ∧
      (stopE e).1.active_probe = none ∧
      stopE (stopE e).1 = stopE e) := by
  refine ⟨rfl, rfl, ?_, ?_, ?_, ?_⟩
  · intro gen delays now idx didx a
    rfl
  · intro g
    rfl
  · intro a
    exact ⟨rfl, rfl, rfl⟩
  · intro e
    exact ⟨rfl, rfl, rfl, rfl⟩

/-! ## Association-list and bounded-append lemmas -/

theorem alookup_none_iff {κ α : Type} [DecidableEq κ] (k : κ) :
    ∀ l : List (κ × α), alookup k l = none ↔ k ∉ keysOf l := by
  intro l
  induction l with
  | nil => simp [alookup, keysOf]
  | cons hd tl ih =>
    obtain ⟨k', v'⟩ := hd
    by_cases h : k' = k
    · subst h
      simp [alookup, keysOf]
    · simp only [alookup, if_neg h, keysOf, List.map_cons, List.mem_cons]
      rw [ih]
      simp only [keysOf]
      constructor
      · rintro hn (rfl | hm)
        · exact h rfl
        · exact hn hm
      · intro hn hm
        exact hn (Or.inr hm)

theorem alookup_some_mem {κ α : Type} [DecidableEq κ] (k : κ) (v : α) :
    ∀ l : List (κ × α), alookup k l = some v → k ∈ keysOf l := by
  intro l h
  by_contra hn
  rw [← alookup_none_iff] at hn
  rw [h] at hn
  exact Option.noConfusion hn

theorem aerase_length {κ α : Type} [DecidableEq κ] (k : κ) (v : α) :
    ∀ l : List (κ × α), alookup k l = some v →
    (aerase k l).length + 1 = l.length := by
  intro l
  induction l with
  | nil => intro h; exact Option.noConfusion h
  | cons hd tl ih =>
    obtain ⟨k', v'⟩ := hd
    intro h
    by_cases hk : k' = k
    · simp [aerase, if_pos hk]
    · simp only [alookup, if_neg hk] at h
      simp only [aerase, if_neg hk, List.length_cons]
      rw [← ih h]

theorem aerase_eq_filter {κ α : Type} [DecidableEq κ] (k : κ) :
    ∀ l : List (κ × α), (keysOf l).Nodup →
    aerase k l = l.filter (fun kv => decide (kv.1 ≠ k)) := by
  intro l
  induction l with
  | nil => intro _; rfl
  | cons hd tl ih =>
    obtain ⟨k', v'⟩ := hd
    intro hnd
    simp only [keysOf, List.map_cons, List.nodup_cons] at hnd
    obtain ⟨hk', htl⟩ := hnd
    by_cases hk : k' = k
    · subst hk
      simp only [aerase, if_pos rfl]
      rw [List.filter_cons_of_neg (by simp)]
      symm
      apply List.filter_eq_self.mpr
      intro kv hkv
      simp only [ne_eq, decide_eq_true_eq]
      intro he
      exact hk' (he ▸ List.mem_map_of_mem Prod.fst hkv)
    · simp only [aerase, if_neg hk]
      rw [List.filter_cons_of_pos (by simp [hk])]
      rw [ih htl]

theorem aerase_mem {κ α : Type} [DecidableEq κ] (k : κ)
    (l : List (κ × α)) (hnd : (keysOf l).Nodup) (kv : κ × α) :
    kv ∈ aerase k l ↔ kv ∈ l ∧ kv.1 ≠ k := by
  rw [aerase_eq_filter k l hnd]
  simp [List.mem_filter]

theorem aerase_nodup {κ α : Type} [DecidableEq κ] (k : κ)
    (l : List (κ × α)) (hnd : (keysOf l).Nodup) :
    (keysOf (aerase k l)).Nodup := by
  rw [aerase_eq_filter k l hnd]
  exact List.Nodup.sublist ((List.filter_sublist l).map Prod.fst) hnd

theorem pushDeadline_mem (x e : ℚ × Identity) :
    ∀ dl : List (ℚ × Identity), e ∈ pushDeadline x dl ↔ e = x ∨ e ∈ dl := by
  intro dl
  induction dl with
  | nil => simp [pushDeadline]
  | cons hd tl ih =>
    simp only [pushDeadline]
    by_cases h : x.1 < hd.1
    · simp [if_pos h]
    · simp only [if_neg h, List.mem_cons, ih]
      tauto

theorem appendBounded_length {α : Type} (cap : ℕ) (l : List α) (x : α)
    (h : l.length ≤ cap) :
    (appendBounded cap l x).length = min cap (l.length + 1) := by
  unfold appendBounded
  simp only [List.length_append, List.length_singleton]
  by_cases hc : cap < l.length + 1
  · rw [if_pos hc]
    simp only [List.length_drop, List.length_append, List.length_singleton]
    omega
  · rw [if_neg hc]
    simp only [List.length_append, List.length_singleton]
    omega

/-! ## check_timeouts characterization -/

theorem ctAux_deadlines (cap : ℕ) (now : ℚ) :
    ∀ (dl : List (ℚ × Identity)) (pend : List (Identity × ℚ × MessageSpec))
      (m : ℕ) (log : List (MessageSpec × ℚ)),
    dl.Pairwise (fun e f => e.1 ≤ f.1) →
    (ctAux cap now dl pend m log).1 =
      dl.filter (fun e => decide (now < e.1)) := by
  intro dl
  induction dl with
  | nil => intro pend m log _; rfl
  | cons hd tl ih =>
    obtain ⟨d, i⟩ := hd
    intro pend m log hs
    rw [List.pairwise_cons] at hs
    obtain ⟨hall, htl⟩ := hs
    simp only [ctAux]
    by_cases hdn : d ≤ now
    · rw [if_pos hdn, List.filter_cons_of_neg (by simpa using not_lt.mpr hdn)]
      cases hl : alookup i pend with
      | some v =>
        obtain ⟨st0, sp⟩ := v
        simp only [hl]
        exact ih _ (m + 1) _ htl
      | none =>
        simp only [hl]
        exact ih pend m log htl
    · rw [if_neg hdn]
      have hnd : now < d := not_le.mp hdn
      show (d, i) :: tl = List.filter (fun e => decide (now < e.1)) ((d, i) :: tl)
      rw [List.filter_cons_of_pos (by simpa using hnd)]
      congr 1
      symm
      apply List.filter_eq_self.mpr
      intro e he
      simp only [decide_eq_true_eq]
      exact lt_of_lt_of_le hnd (hall e he)

theorem ctAux_conservation (cap : ℕ) (now : ℚ) :
    ∀ (dl : List (ℚ × Identity)) (pend : List (Identity × ℚ × MessageSpec))
      (m : ℕ) (log : List (MessageSpec × ℚ)),
    (ctAux cap now dl pend m log).2.2.1 +
      (ctAux cap now dl pend m log).2.1.length = m + pend.length := by
  intro dl
  induction dl with
  | nil => intro pend m log; rfl
  | cons hd tl ih =>
    obtain ⟨d, i⟩ := hd
    intro pend m log
    simp only [ctAux]
    by_cases hdn : d ≤ now
    · rw [if_pos hdn]
      cases hl : alookup i pend with
      | some v =>
        obtain ⟨st0, sp⟩ := v
        simp only [hl]
        have h1 := ih (aerase i pend) (m + 1) (appendBounded cap log (sp, st0))
        have h2 := aerase_length i (st0, sp) pend hl
        omega
      | none =>
        simp only [hl]
        exact ih pend m log
    · rw [if_neg hdn]

theorem ctAux_nodup_witness (cap : ℕ) (now : ℚ) :
    ∀ (dl : List (ℚ × Identity)) (pend : List (Identity × ℚ × MessageSpec))
      (m : ℕ) (log : List (MessageSpec × ℚ)),
    (keysOf pend).Nodup →
    (keysOf (ctAux cap now dl pend m log).2.1).Nodup ∧
    ((∀ kv ∈ pend, ∃ e ∈ dl, e.2 = kv.1) →
      ∀ kv ∈ (ctAux cap now dl pend m log).2.1,
        ∃ e ∈ (ctAux cap now dl pend m log).1, e.2 = kv.1) := by
  intro dl
  induction dl with
  | nil =>
    intro pend m log hnd
    exact ⟨hnd, fun hw => hw⟩
  | cons hd tl ih =>
    obtain ⟨d, i⟩ := hd
    intro pend m log hnd
    simp only [ctAux]
    by_cases hdn : d ≤ now
    · rw [if_pos hdn]
      cases hl : alookup i pend with
      | some v =>
        obtain ⟨st0, sp⟩ := v
        simp only [hl]
        have hnd' := aerase_nodup i pend hnd
        refine ⟨(ih _ (m + 1) _ hnd').1, ?_⟩
        intro hw
        refine (ih _ (m + 1) _ hnd').2 ?_
        intro kv hkv
        obtain ⟨hkvmem, hkne⟩ := (aerase_mem i pend hnd kv).mp hkv
        obtain ⟨e, he, hee⟩ := hw kv hkvmem
        rcases List.mem_cons.mp he with rfl | hetl
        · exact absurd hee.symm hkne
        · exact ⟨e, hetl, hee⟩
      | none =>
        simp only [hl]
        have hni : i ∉ keysOf pend := (alookup_none_iff i pend).mp hl
        refine ⟨(ih pend m log hnd).1, ?_⟩
        intro hw
        refine (ih pend m log hnd).2 ?_
        intro kv hkv
        obtain ⟨e, he, hee⟩ := hw kv hkv
        rcases List.mem_cons.mp he with rfl | hetl
        · exact absurd (by rw [show i = kv.1 from hee]; exact List.mem_map_of_mem Prod.fst hkv) hni
        · exact ⟨e, hetl, hee⟩
    · rw [if_neg hdn]
      exact ⟨hnd, fun hw => hw⟩

theorem ctAux_drain (cap : ℕ) (now : ℚ) :
    ∀ (dl : List (ℚ × Identity)) (pend : List (Identity × ℚ × MessageSpec))
      (m : ℕ) (log : List (MessageSpec × ℚ)),
    (∀ e ∈ dl, e.1 ≤ now) →
    (ctAux cap now dl pend m log).1 = [] := by
  intro dl
  induction dl with
  | nil => intro pend m log _; rfl
  | cons hd tl ih =>
    obtain ⟨d, i⟩ := hd
    intro pend m log h
    simp only [ctAux]
    rw [if_pos (h (d, i) (List.mem_cons_self _ _))]
    cases hl : alookup i pend with
    | some v =>
      obtain ⟨st0, sp⟩ := v
      simp only [hl]
      exact ih _ (m + 1) _ (fun e he => h e (List.mem_cons_of_mem _ he))
    | none =>
      simp only [hl]
      exact ih pend m log (fun e he => h e (List.mem_cons_of_mem _ he))

theorem ctAux_log (cap : ℕ) (now : ℚ) :
    ∀ (dl : List (ℚ × Identity)) (pend : List (Identity × ℚ × MessageSpec))
      (m : ℕ) (log : List (MessageSpec × ℚ)),
    log.length ≤ cap →
    m ≤ (ctAux cap now dl pend m log).2.2.1 ∧
    (ctAux cap now dl pend m log).2.2.2.length =
      min cap (log.length + ((ctAux cap now dl pend m log).2.2.1 - m)) := by
  intro dl
  induction dl with
  | nil =>
    intro pend m log hlog
    refine ⟨Nat.le_refl m, ?_⟩
    show log.length = min cap (log.length + (m - m))
    omega
  | cons hd tl ih =>
    obtain ⟨d, i⟩ := hd
    intro pend m log hlog
    simp only [ctAux]
    by_cases hdn : d ≤ now
    · rw [if_pos hdn]
      cases hl : alookup i pend with
      | some v =>
        obtain ⟨st0, sp⟩ := v
        simp only [hl]
        have hab := appendBounded_length cap log (sp, st0) hlog
        have hlog' : (appendBounded cap log (sp, st0)).length ≤ cap := by omega
        obtain ⟨hm, heq⟩ := ih (aerase i pend) (m + 1)
          (appendBounded cap log (sp, st0)) hlog'
        constructor
        · omega
        · rw [heq]
          omega
      | none =>
        simp only [hl]
        exact ih pend m log hlog
    · rw [if_neg hdn]
      refine ⟨Nat.le_refl m, ?_⟩
      show log.length = min cap (log.length + (m - m))
      omega

theorem ctAux_noop (cap : ℕ) (now : ℚ) :
    ∀ (dl : List (ℚ × Identity)) (pend : List (Identity × ℚ × MessageSpec))
      (m : ℕ) (log : List (MessageSpec × ℚ)),
    (∀ e ∈ dl, e.1 ≤ now → e.2 ∉ keysOf pend) →
    (ctAux cap now dl pend m log).2.1 = pend ∧
    (ctAux cap now dl pend m log).2.2.1 = m ∧
    (ctAux cap now dl pend m log).2.2.2 = log := by
  intro dl
  induction dl with
  | nil => intro pend m log _; exact ⟨rfl, rfl, rfl⟩
  | cons hd tl ih =>
    obtain ⟨d, i⟩ := hd
    intro pend m log h
    simp only [ctAux]
    by_cases hdn : d ≤ now
    · rw [if_pos hdn]
      cases hl : alookup i pend with
      | some v =>
        exact absurd (alookup_some_mem i v pend hl)
          (h (d, i) (List.mem_cons_self _ _) hdn)
      | none =>
        simp only [hl]
        exact ih pend m log
          (fun e he hle => h e (List.mem_cons_of_mem _ he) hle)
    · rw [if_neg hdn]
      exact ⟨rfl, rfl, rfl⟩

theorem ctAux_pending_mem (cap : ℕ) (now : ℚ) :
    ∀ (dl : List (ℚ × Identity)) (pend : List (Identity × ℚ × MessageSpec))
      (m : ℕ) (log : List (MessageSpec × ℚ)),
    dl.Pairwise (fun e f => e.1 ≤ f.1) → (keysOf pend).Nodup →
    ∀ kv, kv ∈ (ctAux cap now dl pend m log).2.1 ↔
      kv ∈ pend ∧ ¬∃ e ∈ dl, e.1 ≤ now ∧ e.2 = kv.1 := by
  intro dl
  induction dl with
  | nil =>
    intro pend m log _ _ kv
    simp [ctAux]
  | cons hd tl ih =>
    obtain ⟨d, i⟩ := hd
    intro pend m log hs hnd kv
    rw [List.pairwise_cons] at hs
    obtain ⟨hall, htl⟩ := hs
    simp only [ctAux]
    by_cases hdn : d ≤ now
    · rw [if_pos hdn]
      cases hl : alookup i pend with
      | some v =>
        obtain ⟨st0, sp⟩ := v
        simp only [hl]
        rw [ih _ (m + 1) _ htl (aerase_nodup i pend hnd) kv]
        rw [aerase_mem i pend hnd kv]
        constructor
        · rintro ⟨⟨hmem, hne⟩, hnex⟩
          refine ⟨hmem, ?_⟩
          rintro ⟨e, he, hle, hei⟩
          rcases List.mem_cons.mp he with rfl | hetl
          · exact hne hei.symm
          · exact hnex ⟨e, hetl, hle, hei⟩
        · rintro ⟨hmem, hnex⟩
          refine ⟨⟨hmem, ?_⟩, ?_⟩
          · intro heq
            exact hnex ⟨(d, i), List.mem_cons_self _ _, hdn, heq.symm⟩
          · rintro ⟨e, hetl, hle, hei⟩
            exact hnex ⟨e, List.mem_cons_of_mem _ hetl, hle, hei⟩
      | none =>
        simp only [hl]
        have hni : i ∉ keysOf pend := (alookup_none_iff i pend).mp hl
        rw [ih pend m log htl hnd kv]
        constructor
        · rintro ⟨hmem, hnex⟩
          refine ⟨hmem, ?_⟩
          rintro ⟨e, he, hle, hei⟩
          rcases List.mem_cons.mp he with rfl | hetl
          · exact hni (by rw [show i = kv.1 from hei]; exact List.mem_map_of_mem Prod.fst hmem)
          · exact hnex ⟨e, hetl, hle, hei⟩
        · rintro ⟨hmem, hnex⟩
          refine ⟨hmem, ?_⟩
          rintro ⟨e, hetl, hle, hei⟩
          exact hnex ⟨e, List.mem_cons_of_mem _ hetl, hle, hei⟩
    · rw [if_neg hdn]
      constructor
      · intro hmem
        refine ⟨hmem, ?_⟩
        rintro ⟨e, he, hle, -⟩
        rcases List.mem_cons.mp he with rfl | hetl
        · exact hdn hle
        · exact hdn (le_trans (hall e hetl) hle)
      · exact fun h => h.1

/-- C4: `check_timeouts(now)` pops exactly the deadline-queue entries
with deadline ≤ `now` (the queue keeps the rest); a pending identity is
removed precisely when some popped entry references it; the missed
counter grows by exactly the number of removed pending entries (one
per removal) and the bounded missing log grows by the same number up
to its capacity; nothing else of the analyzer state changes; and
popped entries whose identity was already resolved are discarded with
no state change at all (lazy deletion, not an error). -/
theorem checkTimeouts_spec (now : ℚ) (s : AnalyzerState)
    (hsort : s.deadlines.Pairwise (fun e f => e.1 ≤ f.1))
    (hnd : (keysOf s.pending).Nodup)
    (hlog : s.missing_log.length ≤ s.max_missing) :
    (checkTimeoutsA now s).deadlines =
      s.deadlines.filter (fun e => decide (now < e.1)) ∧
    (∀ kv, kv ∈ (checkTimeoutsA now s).pending ↔
      kv ∈ s.pending ∧ ¬∃ e ∈ s.deadlines, e.1 ≤ now ∧ e.2 = kv.1) ∧
    (checkTimeoutsA now s).missed_count +
        (checkTimeoutsA now s).pending.length =
      s.missed_count + s.pending.length ∧
    s.missed_count ≤ (checkTimeoutsA now s).missed_count ∧
    (checkTimeoutsA now s).missing_log.length =
      min s.max_missing (s.missing_log.length +
        ((checkTimeoutsA now s).missed_count - s.missed_count)) ∧
    (checkTimeoutsA now s).sent_count = s.sent_count ∧
    (checkTimeoutsA now s).received_count = s.received_count ∧
    (checkTimeoutsA now s).results_x = s.results_x ∧
    (checkTimeoutsA now s).results_y = s.results_y ∧
    (checkTimeoutsA now s).stats = s.stats ∧
    (checkTimeoutsA now s).last_latency_ms = s.last_latency_ms ∧
    ((∀ e ∈ s.deadlines, e.1 ≤ now → e.2 ∉ keysOf s.pending) →
      (checkTimeoutsA now s).pending = s.pending ∧
      (checkTimeoutsA now s).missed_count = s.missed_count ∧
      (checkTimeoutsA now s).missing_log = s.missing_log) := by
  refine ⟨?_, ?_, ?_, ?_, ?_, rfl, rfl, rfl, rfl, rfl, rfl, ?_⟩
  · exact ctAux_deadlines s.max_missing now s.deadlines s.pending
      s.missed_count s.missing_log hsort
  · exact ctAux_pending_mem s.max_missing now s.deadlines s.pending
      s.missed_count s.missing_log hsort hnd
  · exact ctAux_conservation s.max_missing now s.deadlines s.pending
      s.missed_count s.missing_log
  · exact (ctAux_log s.max_missing now s.deadlines s.pending
      s.missed_count s.missing_log hlog).1
  · exact (ctAux_log s.max_missing now s.deadlines s.pending
      s.missed_count s.missing_log hlog).2
  · intro hno
    exact ctAux_noop s.max_missing now s.deadlines s.pending
      s.missed_count s.missing_log hno

/-- Closed witness for `checkTimeouts_spec`: one registered spec
(deadline 2), timeouts checked at `now = 10`. -/
theorem checkTimeouts_spec_witness :
    (checkTimeoutsA 10
        (registerSent (buildSpec .cc 0 74 64) 0
          (startA 0 (mkAnalyzer 2 20000 200)))).deadlines =
      (registerSent (buildSpec .cc 0 74 64) 0
        (startA 0 (mkAnalyzer 2 20000 200))).deadlines.filter
          (fun e => decide ((10 : ℚ) < e.1)) ∧
    (checkTimeoutsA 10
        (registerSent (buildSpec .cc 0 74 64) 0
          (startA 0 (mkAnalyzer 2 20000 200)))).missed_count +
        (checkTimeoutsA 10
          (registerSent (buildSpec .cc 0 74 64) 0
            (startA 0 (mkAnalyzer 2 20000 200)))).pending.length =
      (registerSent (buildSpec .cc 0 74 64) 0
          (startA 0 (mkAnalyzer 2 20000 200))).missed_count +
        (registerSent (buildSpec .cc 0 74 64) 0
          (startA 0 (mkAnalyzer 2 20000 200))).pending.length := by
  obtain ⟨h1, -, h3, -⟩ :=
    checkTimeouts_spec 10
      (registerSent (buildSpec .cc 0 74 64) 0
        (startA 0 (mkAnalyzer 2 20000 200)))
      (by decide) (by decide) (by decide)
  exact ⟨h1, h3⟩

/-! ## Exactly-once resolution across analyzer runs -/

/-- One driver-visible analyzer operation of a run (between `start()`
and `stop()`): a `register_sent`, a `process_events` batch, or a
`check_timeouts` poll. -/
inductive AOp where
  | reg (spec : MessageSpec) (t : ℚ)
  | proc (events : List InEvent) (now : ℚ)
  | chk (now : ℚ)

/-- Apply one operation to the analyzer state. -/
def applyOp : AOp → AnalyzerState → AnalyzerState
  | .reg sp t, s => registerSent sp t s
  | .proc es now, s => processEventsA es now s
  | .chk now, s => checkTimeoutsA now s

/-- Run a whole operation sequence. -/
def runOps : List AOp → AnalyzerState → AnalyzerState
  | [], s => s
  | op :: rest, s => runOps rest (applyOp op s)

/-- The Generator's duty (claim precondition): along the whole run, no
`register_sent` is issued for an identity already in the pending map. -/
def okTrace : AnalyzerState → List AOp → Bool
  | _, [] => true
  | s, op :: rest =>
    (match op with
     | .reg sp _ => decide (sp.identity ∉ keysOf s.pending)
     | _ => true) && okTrace (applyOp op s) rest

/-- Run invariant: the counters account for every registration
(`sent = received + missed + |pending|`), pending keys are distinct,
and every pending identity still has an entry in the deadline queue. -/
def AnaInv (s : AnalyzerState) : Prop :=
  s.sent_count = s.received_count + s.missed_count + s.pending.length ∧
  (keysOf s.pending).Nodup ∧
  (∀ kv ∈ s.pending, ∃ e ∈ s.deadlines, e.2 = kv.1)

theorem registerSent_received (sp : MessageSpec) (t : ℚ) (a : AnalyzerState) :
    (registerSent sp t a).received_count = a.received_count := by
  unfold registerSent
  by_cases h : a.start_time = none <;> simp [h]

theorem registerSent_missed (sp : MessageSpec) (t : ℚ) (a : AnalyzerState) :
    (registerSent sp t a).missed_count = a.missed_count := by
  unfold registerSent
  by_cases h : a.start_time = none <;> simp [h]

theorem registerSent_deadlines (sp : MessageSpec) (t : ℚ) (a : AnalyzerState) :
    (registerSent sp t a).deadlines =
      pushDeadline (t + a.timeout_s, sp.identity) a.deadlines := by
  unfold registerSent
  by_cases h : a.start_time = none <;> simp [h]

theorem registerSent_inv (sp : MessageSpec) (t : ℚ) (a : AnalyzerState)
    (hni : sp.identity ∉ keysOf a.pending) (h : AnaInv a) :
    AnaInv (registerSent sp t a) := by
  obtain ⟨h1, h2, h3⟩ := h
  refine ⟨?_, registerSent_nodup sp t a hni h2, ?_⟩
  · rw [registerSent_sent_count, registerSent_received, registerSent_missed,
      registerSent_pending, aset_not_mem _ _ _ hni, List.length_append]
    simp only [List.length_singleton]
    omega
  · intro kv hkv
    rw [registerSent_pending, aset_not_mem _ _ _ hni] at hkv
    rw [registerSent_deadlines]
    rcases List.mem_append.mp hkv with hold | hnew
    · obtain ⟨e, he, hee⟩ := h3 kv hold
      exact ⟨e, (pushDeadline_mem _ e a.deadlines).mpr (Or.inr he), hee⟩
    · rw [List.mem_singleton] at hnew
      refine ⟨(t + a.timeout_s, sp.identity),
        (pushDeadline_mem _ _ _).mpr (Or.inl rfl), ?_⟩
      rw [hnew]

theorem procEvent_eq (now : ℚ) (e : InEvent) (s : AnalyzerState)
    (sp : MessageSpec) (st0 : ℚ) (sp0 : MessageSpec)
    (he : eventToSpec e = some sp)
    (hl : alookup sp.identity s.pending = some (st0, sp0)) :
    procEvent now s e = { s with
      pending := aerase sp.identity s.pending
      results_x := appendBounded s.max_points s.results_x
        (match s.start_time with
          | some t0 => if t0 = 0 then 0 else (st0 - t0) / 60
          | none => 0)
      results_y := appendBounded s.max_points s.results_y
        (max 0 ((e.timestamp.getD now - st0) * 1000))
      stats := s.stats.update (max 0 ((e.timestamp.getD now - st0) * 1000))
      last_latency_ms := some (max 0 ((e.timestamp.getD now - st0) * 1000))
      received_count := s.received_count + 1
      plot_dirty := true
      new_result := true } := by
  simp only [procEvent, he, hl]

theorem procEvent_inv (now : ℚ) (e : InEvent) (s : AnalyzerState)
    (h : AnaInv s) :
    AnaInv (procEvent now s e) ∧ (procEvent now s e).deadlines = s.deadlines := by
  cases he : eventToSpec e with
  | none =>
    have heq : procEvent now s e = s := by simp only [procEvent, he]
    rw [heq]
    exact ⟨h, rfl⟩
  | some sp =>
    cases hl : alookup sp.identity s.pending with
    | none =>
      have heq : procEvent now s e = s := by simp only [procEvent, he, hl]
      rw [heq]
      exact ⟨h, rfl⟩
    | some v =>
      obtain ⟨st0, sp0⟩ := v
      rw [procEvent_eq now e s sp st0 sp0 he hl]
      obtain ⟨h1, h2, h3⟩ := h
      refine ⟨⟨?_, aerase_nodup _ _ h2, ?_⟩, rfl⟩
      · show s.sent_count = s.received_count + 1 + s.missed_count +
          (aerase sp.identity s.pending).length
        have := aerase_length sp.identity (st0, sp0) s.pending hl
        omega
      · intro kv hkv
        exact h3 kv ((aerase_mem sp.identity s.pending h2 kv).mp hkv).1

theorem processEventsA_inv (events : List InEvent) (now : ℚ) :
    ∀ s : AnalyzerState, AnaInv s →
    AnaInv (processEventsA events now s) ∧
    (processEventsA events now s).deadlines = s.deadlines := by
  induction events with
  | nil => intro s h; exact ⟨h, rfl⟩
  | cons e rest ih =>
    intro s h
    obtain ⟨hi, hd⟩ := procEvent_inv now e s h
    obtain ⟨hi2, hd2⟩ := ih (procEvent now s e) hi
    refine ⟨hi2, ?_⟩
    show (processEventsA rest now (procEvent now s e)).deadlines = s.deadlines
    rw [hd2, hd]

theorem checkTimeoutsA_inv (now : ℚ) (s : AnalyzerState) (h : AnaInv s) :
    AnaInv (checkTimeoutsA now s) := by
  obtain ⟨h1, h2, h3⟩ := h
  have hc := ctAux_conservation s.max_missing now s.deadlines s.pending
    s.missed_count s.missing_log
  have hw := ctAux_nodup_witness s.max_missing now s.deadlines s.pending
    s.missed_count s.missing_log h2
  refine ⟨?_, hw.1, hw.2 h3⟩
  show s.sent_count = s.received_count +
    (ctAux s.max_missing now s.deadlines s.pending s.missed_count
      s.missing_log).2.2.1 +
    (ctAux s.max_missing now s.deadlines s.pending s.missed_count
      s.missing_log).2.1.length
  omega

theorem startA_inv (t0 : ℚ) (s : AnalyzerState) : AnaInv (startA t0 s) :=
  ⟨rfl, List.nodup_nil, fun kv hkv => absurd hkv (List.not_mem_nil kv)⟩

theorem runOps_inv : ∀ (ops : List AOp) (s : AnalyzerState),
    okTrace s ops = true → AnaInv s → AnaInv (runOps ops s) := by
  intro ops
  induction ops with
  | nil => intro s _ h; exact h
  | cons op rest ih =>
    intro s hok h
    show AnaInv (runOps rest (applyOp op s))
    cases op with
    | reg sp t =>
      simp only [okTrace, Bool.and_eq_true, decide_eq_true_eq] at hok
      exact ih _ hok.2 (registerSent_inv sp t s hok.1 h)
    | proc es now =>
      simp only [okTrace, Bool.true_and] at hok
      exact ih _ hok (processEventsA_inv es now s h).1
    | chk now =>
      simp only [okTrace, Bool.true_and] at hok
      exact ih _ hok (checkTimeoutsA_inv now s h)

/-- C1: over any analyzer run that begins with `start()`, performs an
arbitrary interleaving of `register_sent` / `process_events` /
`check_timeouts` in which no identity is registered while already
pending (the Generator's duty), and is not restarted mid-run: the
counters always satisfy `sent = received + missed + |pending|` (so no
identity is ever resolved as both a match and a miss), and once a
final `check_timeouts(T)` runs at a time `T` past every queued
deadline, the pending map is empty and `sent = received + missed`
exactly — every registered identity has resolved exactly once, as a
match or as a miss. -/
theorem analyzer_resolves_exactly_once (tmo : ℚ) (mp mm : ℕ) (t0 T : ℚ)
    (ops : List AOp)
    (hok : okTrace (startA t0 (mkAnalyzer tmo mp mm)) ops = true)
    (hT : ∀ e ∈ (runOps ops (startA t0 (mkAnalyzer tmo mp mm))).deadlines,
      e.1 ≤ T) :
    (runOps ops (startA t0 (mkAnalyzer tmo mp mm))).sent_count =
      (runOps ops (startA t0 (mkAnalyzer tmo mp mm))).received_count +
      (runOps ops (startA t0 (mkAnalyzer tmo mp mm))).missed_count +
      (runOps ops (startA t0 (mkAnalyzer tmo mp mm))).pending.length ∧
    (checkTimeoutsA T
      (runOps ops (startA t0 (mkAnalyzer tmo mp mm)))).pending = [] ∧
    (checkTimeoutsA T
        (runOps ops (startA t0 (mkAnalyzer tmo mp mm)))).sent_count =
      (runOps ops (startA t0 (mkAnalyzer tmo mp mm))).sent_count ∧
    (checkTimeoutsA T
        (runOps ops (startA t0 (mkAnalyzer tmo mp mm)))).received_count =
      (runOps ops (startA t0 (mkAnalyzer tmo mp mm))).received_count ∧
    (checkTimeoutsA T
        (runOps ops (startA t0 (mkAnalyzer tmo mp mm)))).sent_count =
      (checkTimeoutsA T
        (runOps ops (startA t0 (mkAnalyzer tmo mp mm)))).received_count +
      (checkTimeoutsA T
        (runOps ops (startA t0 (mkAnalyzer tmo mp mm)))).missed_count := by
  have hinv := runOps_inv ops _ hok (startA_inv t0 (mkAnalyzer tmo mp mm))
  set s := runOps ops (startA t0 (mkAnalyzer tmo mp mm)) with hs
  obtain ⟨h1, h2, h3⟩ := hinv
  have hdrain := ctAux_drain s.max_missing T s.deadlines s.pending
    s.missed_count s.missing_log hT
  have hw := (ctAux_nodup_witness s.max_missing T s.deadlines s.pending
    s.missed_count s.missing_log h2).2 h3
  have hpend : (checkTimeoutsA T s).pending = [] := by
    cases hp : (checkTimeoutsA T s).pending with
    | nil => rfl
    | cons kv rest =>
      have hkv : kv ∈ (checkTimeoutsA T s).pending := by
        rw [hp]; exact List.mem_cons_self _ _
      obtain ⟨e, he, -⟩ := hw kv hkv
      rw [hdrain] at he
      exact absurd he (List.not_mem_nil e)
  have hcons : (checkTimeoutsA T s).missed_count +
      (checkTimeoutsA T s).pending.length =
      s.missed_count + s.pending.length :=
    ctAux_conservation s.max_missing T s.deadlines s.pending
      s.missed_count s.missing_log
  have hlen : (checkTimeoutsA T s).pending.length = 0 := by
    rw [hpend]; rfl
  refine ⟨h1, hpend, rfl, rfl, ?_⟩
  show s.sent_count = s.received_count + (checkTimeoutsA T s).missed_count
  omega

/-- Closed witness for `analyzer_resolves_exactly_once`: a run that
registers one CC spec at time 0 (timeout 2), drained at `T = 10`. -/
theorem analyzer_resolves_exactly_once_witness :
    (checkTimeoutsA 10
      (runOps [AOp.reg (buildSpec .cc 0 74 64) 0]
        (startA 0 (mkAnalyzer 2 20000 200)))).pending = [] ∧
    (checkTimeoutsA 10
        (runOps [AOp.reg (buildSpec .cc 0 74 64) 0]
          (startA 0 (mkAnalyzer 2 20000 200)))).sent_count =
      (checkTimeoutsA 10
        (runOps [AOp.reg (buildSpec .cc 0 74 64) 0]
          (startA 0 (mkAnalyzer 2 20000 200)))).received_count +
      (checkTimeoutsA 10
        (runOps [AOp.reg (buildSpec .cc 0 74 64) 0]
          (startA 0 (mkAnalyzer 2 20000 200)))).missed_count := by
  have hT : ∀ e ∈ (runOps [AOp.reg (buildSpec .cc 0 74 64) 0]
      (startA 0 (mkAnalyzer 2 20000 200))).deadlines, e.1 ≤ (10 : ℚ) := by
    have hdl : (runOps [AOp.reg (buildSpec .cc 0 74 64) 0]
        (startA 0 (mkAnalyzer 2 20000 200))).deadlines =
        [((0 : ℚ) + 2, (buildSpec .cc 0 74 64).identity)] := by
      show (registerSent (buildSpec .cc 0 74 64) 0
        (startA 0 (mkAnalyzer 2 20000 200))).deadlines = _
      rw [registerSent_deadlines]
      rfl
    rw [hdl]
    intro e he
    rw [List.mem_singleton] at he
    subst he
    show (0 : ℚ) + 2 ≤ 10
    norm_num
  obtain ⟨-, hb, -, -, he⟩ :=
    analyzer_resolves_exactly_once 2 20000 200 0 10
      [AOp.reg (buildSpec .cc 0 74 64) 0]
      (by decide) hT
  exact ⟨hb, he⟩
